import Mathlib

/-!
# RTTPicker: deferred pick queue, spiral neighbourhood search, identifier decoding

A shallow embedding of `src/osgEarth/RTTPicker.cpp`.

* `unsigned` values are natural numbers reduced modulo `2^32` wherever the source can wrap;
  `int` values are integers (signed overflow is undefined behaviour in the source and is not
  given a meaning here).
* `float`/`double` values are fractions `num / den` (`FloatVal`), with denominator zero for
  infinities and NaN; the sign of a zero is not represented.  The result of every `float`
  operation and of every conversion to `float` is rounded to binary32, to nearest with ties to
  even (`roundBinary32`); `double` products with the constant `255.0` are exact.  Conversions
  to integer types truncate toward zero, as the C++ conversions do; the conversion of a value
  that is not finite, which is undefined in the source, gives 0.
* Loops that the source writes as `while`/`do ... while` over the spiral take a fuel argument
  and return `none` when the fuel runs out; the theorems show how much fuel is enough.
* Callback invocations (`onHit`, `onMiss`) are recorded in a log carried by the picker state.
* `osg::View`, `osg::Camera` and `osg::Viewport` are reduced to what the picker reads from
  them; a null pointer is `none`; the `_context` pointer of a pick is the position of the
  context in `_pickContexts`.
-/

namespace RTTPicker

/-! ## Scalars -/

/-- Conversion of an `int` to `unsigned`: reduction modulo `2^32`.  This is the conversion
the source applies to `_x`, `-_x`, `_y`, `-_y` when comparing them with the unsigned `_ring`,
and to `maxDist` when initialising the unsigned `_maxRing`. -/
def toUnsigned (i : Int) : Nat := (i % 4294967296).toNat

/-- A floating-point value: the fraction `num / den`; with `den = 0` it stands for positive
infinity (`num > 0`), negative infinity (`num < 0`) or NaN (`num = 0`). -/
structure FloatVal where
  num : Int
  den : Nat
deriving DecidableEq, Repr

namespace FloatVal

/-- The floating-point value of an integer. -/
def ofInt (n : Int) : FloatVal := { num := n, den := 1 }

/-- Exact product of a floating-point value with an integer constant: the `double` product
`value * 255.0` of the decoder, which is exact for a binary32 value. -/
def mulInt (f : FloatVal) (k : Int) : FloatVal := { num := f.num * k, den := f.den }

/-- Conversion to `int`: truncation toward zero (0 for an infinity or NaN, whose conversion
the source leaves undefined). -/
def toInt (f : FloatVal) : Int := Int.tdiv f.num f.den

/-- Conversion to `unsigned`: truncation toward zero, reduced modulo `2^32`. -/
def toUInt (f : FloatVal) : Nat := toUnsigned (f.toInt)

/-- Comparison `f < k` with an integer constant; false for NaN, and for an infinity decided by
its sign. -/
def ltInt (f : FloatVal) (k : Int) : Bool := decide (f.num < k * f.den)

/-- Comparison `f > k` with an integer constant; false for NaN, and for an infinity decided by
its sign. -/
def gtInt (f : FloatVal) (k : Int) : Bool := decide (f.num > k * f.den)

/-- The normalised channel value `byte / 255`. -/
def ofByte (b : Nat) : FloatVal := { num := b, den := 255 }

/-- The exponent search of `roundBinary32`: the least `k` from the start value on (within the
fuel) with `2^23 * den ≤ num * 2^k`. -/
def scaleExp (num den : Nat) : Nat → Nat → Nat
  | 0, k => k
  | fuel + 1, k => if 2 ^ 23 * den ≤ num * 2 ^ k then k else scaleExp num den fuel (k + 1)

/-- The exponent search of `roundBinary32` for large values: the least `j` from the start value
on (within the fuel) with `num < 2^24 * den * 2^j`. -/
def scaleDown (num den : Nat) : Nat → Nat → Nat
  | 0, j => j
  | fuel + 1, j => if num < 2 ^ 24 * den * 2 ^ j then j else scaleDown num den fuel (j + 1)

/-- The integer nearest to `num / den`, ties going to the even one. -/
def roundHalfEven (num den : Nat) : Nat :=
  let q := num / den
  let r := num % den
  if 2 * r < den then q else if den < 2 * r then q + 1 else if q % 2 = 0 then q else q + 1

/-- IEEE 754 binary32 rounding (to nearest, ties to even) of a positive value `n / den`.
Below `2^24` the value is scaled by `2^k` into `[2^23, 2^24)`, with `k` at most 149 (the
subnormal spacing `2^-149`), and rounded to an integer significand; from `2^24` on it is
rounded to a multiple of the spacing `2^j` of its binade.  A result of `2^128` or more is
positive infinity. -/
def roundMagnitude (n den : Nat) : FloatVal :=
  let j := scaleDown n den 105 0
  if j = 0 then
    let k := scaleExp n den 149 0
    { num := roundHalfEven (n * 2 ^ k) den, den := 2 ^ k }
  else
    let m := roundHalfEven n (den * 2 ^ j)
    if j = 105 ∨ (j = 104 ∧ m = 2 ^ 24) then { num := 1, den := 0 }
    else { num := m * 2 ^ j, den := 1 }

/-- IEEE 754 binary32 rounding (to nearest, ties to even): the value of a conversion to `float`
and of the exact result of a `float` operation.  Zero, the infinities and NaN are returned as
they are. -/
def roundBinary32 (f : FloatVal) : FloatVal :=
  if f.den = 0 ∨ f.num = 0 then f
  else if 0 < f.num then roundMagnitude f.num.toNat f.den
  else
    let r := roundMagnitude (-f.num).toNat f.den
    { num := -r.num, den := r.den }

/-- Exact product `a * b` (infinity times zero is NaN). -/
def mul (a b : FloatVal) : FloatVal := { num := a.num * b.num, den := a.den * b.den }

/-- The `float` product `u * (float)k` of a `float` with an `int`: the binary32 value of `u`
times the binary32 value of `k`, rounded to binary32. -/
def mulFloat (u : FloatVal) (k : Int) : FloatVal :=
  (u.roundBinary32.mul (ofInt k).roundBinary32).roundBinary32

end FloatVal

/-! ## Spiral iterator (`SpiralIterator`, lines 275-315) -/

/-- The fields of `struct SpiralIterator`. -/
structure SpiralIterator where
  ring : Nat
  maxRing : Nat
  leg : Nat
  x : Int
  y : Int
  w : Int
  h : Int
  offsetX : Int
  offsetY : Int
  count : Nat
deriving DecidableEq, Repr

namespace SpiralIterator

/-- The constructor `SpiralIterator(w, h, maxDist, u, v)`. -/
def init (w h maxDist : Int) (u v : FloatVal) : SpiralIterator :=
  { ring := 1
    maxRing := toUnsigned maxDist
    leg := 0
    x := 0
    y := 0
    w := w
    h := h
    offsetX := (u.mulFloat w).toInt
    offsetY := (v.mulFloat h).toInt
    count := 0 }

/-- The accessor `s()`. -/
def s (it : SpiralIterator) : Int := it.x + it.offsetX

/-- The accessor `t()`. -/
def t (it : SpiralIterator) : Int := it.y + it.offsetY

/-- One execution of the `switch(_leg)` statement in the body of the `do` loop. -/
def advance (it : SpiralIterator) : SpiralIterator :=
  match it.leg with
  | 0 =>
    let x1 := it.x + 1
    if toUnsigned x1 = it.ring then { it with x := x1, leg := 1 } else { it with x := x1 }
  | 1 =>
    let y1 := it.y + 1
    if toUnsigned y1 = it.ring then { it with y := y1, leg := 2 } else { it with y := y1 }
  | 2 =>
    let x1 := it.x - 1
    if toUnsigned (-x1) = it.ring then { it with x := x1, leg := 3 } else { it with x := x1 }
  | 3 =>
    let y1 := it.y - 1
    if toUnsigned (-y1) = it.ring then
      { it with y := y1, leg := 0, ring := (it.ring + 1) % 4294967296 }
    else { it with y := y1 }
  | _ => it

/-- The bounds test of the `while` condition:
`_x+_offsetX < 0 || _x+_offsetX >= _w || _y+_offsetY < 0 || _y+_offsetY >= _h`. -/
def outOfBounds (it : SpiralIterator) : Bool :=
  decide (it.x + it.offsetX < 0) || decide (it.x + it.offsetX ≥ it.w) ||
    decide (it.y + it.offsetY < 0) || decide (it.y + it.offsetY ≥ it.h)

/-- The loop `do { switch ... } while (_ring <= _maxRing && out of bounds)`; `none` when the
fuel is used up before the loop exits. -/
def spin : Nat → SpiralIterator → Option SpiralIterator
  | 0, _ => none
  | fuel + 1, it =>
    let it1 := it.advance
    if it1.ring ≤ it1.maxRing ∧ it1.outOfBounds = true then spin fuel it1 else some it1

/-- The post-increment of the unsigned `_count` in `_count++ == 0`. -/
def tick (it : SpiralIterator) : SpiralIterator :=
  { it with count := (it.count + 1) % 4294967296 }

/-- The method `next()`: the returned flag and the iterator afterwards. -/
def next (fuel : Nat) (it : SpiralIterator) : Option (Bool × SpiralIterator) :=
  if it.count = 0 then some (true, it.tick)
  else
    match spin fuel it.tick with
    | none => none
    | some it1 => some (decide (it1.ring ≤ it1.maxRing), it1)

/-- The pixels `(s(), t())` yielded by calling `next()` until it returns false, in order. -/
def visited (fuel : Nat) : Nat → SpiralIterator → Option (List (Int × Int))
  | 0, _ => none
  | k + 1, it =>
    match next fuel it with
    | none => none
    | some (false, _) => some []
    | some (true, it1) =>
      match visited fuel k it1 with
      | none => none
      | some l => some ((it1.s, it1.t) :: l)

end SpiralIterator

/-! ## Images and identifier decoding (lines 325-337) -/

/-- An `osg::Vec4f` colour value. -/
structure Vec4f where
  r : FloatVal
  g : FloatVal
  b : FloatVal
  a : FloatVal
deriving DecidableEq, Repr

/-- The colour value with every channel rounded to binary32. -/
def Vec4f.roundBinary32 (c : Vec4f) : Vec4f :=
  { r := c.r.roundBinary32, g := c.g.roundBinary32, b := c.b.roundBinary32,
    a := c.a.roundBinary32 }

/-- An `osg::Image` seen through `ImageUtils::PixelReader`: its size `s() x t()` and the value
the reader returns for a coordinate pair.  The function is total: its values outside
`[0,s) x [0,t)` stand for whatever a read beyond the buffer returns. -/
structure Image where
  s : Int
  t : Int
  read : Int → Int → Vec4f

/-- The identifier computed from a colour value:
`((unsigned)(r*255.0) << 24) + ((unsigned)(g*255.0) << 16) + ((unsigned)(b*255.0) << 8)
 + ((unsigned)(a*255.0))`, in `unsigned` arithmetic. -/
def decodeId (value : Vec4f) : Nat :=
  ((((value.r.mulInt 255).toUInt <<< 24) % 4294967296 +
    ((value.g.mulInt 255).toUInt <<< 16) % 4294967296 +
    ((value.b.mulInt 255).toUInt <<< 8) % 4294967296 +
    (value.a.mulInt 255).toUInt)) % 4294967296

/-- A callback invocation: `onHit(id)` or `onMiss()`. -/
inductive CallbackEvent where
  | onHit (id : Nat)
  | onMiss
deriving DecidableEq, Repr

/-- The loop `while (iter.next()) { ... if (id > 0) { onHit(id); return; } }` followed by
`onMiss()`: the callback invocation it ends with. -/
def scan (read : Int → Int → Vec4f) (fuel : Nat) : Nat → SpiralIterator → Option CallbackEvent
  | 0, _ => none
  | k + 1, it =>
    match SpiralIterator.next fuel it with
    | none => none
    | some (false, _) => some CallbackEvent.onMiss
    | some (true, it1) =>
      let id := decodeId (read it1.s it1.t)
      if id > 0 then some (CallbackEvent.onHit id) else scan read fuel k it1

/-! ## Picker state, `checkForPickResult` and `runPicks` -/

/-- A `PickContext`: the view it belongs to, its image, and the node mask of its pick camera
(`0` = render pass off, `0xffffffff` = on); further whether `_tex` is valid, and the view and
projection matrices of the pick camera (named by numbers). -/
structure PickContext where
  view : Nat
  image : Image
  nodeMask : Nat
  texValid : Bool := false
  viewMatrix : Nat := 0
  projectionMatrix : Nat := 0

/-- A queued `Pick`.  The `_context` pointer is represented by the position of the context in
`_pickContexts`; the callback is named by a number. -/
structure Pick where
  context : Nat
  u : FloatVal
  v : FloatVal
  callback : Nat
  frame : Nat
deriving DecidableEq, Repr

/-- The state of an `RTTPicker`, together with the log of callback invocations made so far
(callback, invocation), oldest first.  The queue `_picks` has its front at the head. -/
structure Picker where
  rttSize : Int
  buffer : Int
  pickContexts : List PickContext
  picks : List Pick
  log : List (Nat × CallbackEvent)
  defaultCallback : Option Nat := none

/-- The decoding part of `checkForPickResult` (lines 325-346): the callback invocation it makes
for a pick against the given contexts. -/
def pickOutcome (fuel : Nat) (buffer : Int) (ctxs : List PickContext) (pick : Pick) :
    Option CallbackEvent :=
  match ctxs[pick.context]? with
  | none => none
  | some ctx =>
    scan ctx.image.read fuel fuel
      (SpiralIterator.init ctx.image.s ctx.image.t (max buffer 1) pick.u pick.v)

/-- The step `pick._context->_pickCamera->setNodeMask(0)`. -/
def disableContext (ctxs : List PickContext) (i : Nat) : List PickContext :=
  match ctxs[i]? with
  | none => ctxs
  | some ctx => ctxs.set i { ctx with nodeMask := 0 }

/-- The method `checkForPickResult(pick)`. -/
def checkForPickResult (fuel : Nat) (p : Picker) (pick : Pick) : Option Picker :=
  match pickOutcome fuel p.buffer p.pickContexts pick with
  | none => none
  | some ev =>
    some { p with
      pickContexts := disableContext p.pickContexts pick.context
      log := p.log ++ [(pick.callback, ev)] }

/-- The loop of `runPicks(frameNumber)` over the queue. -/
def runPicksLoop (fuel : Nat) (frameNumber : Nat) : List Pick → Picker → Option Picker
  | [], p => some { p with picks := [] }
  | pick :: rest, p =>
    if frameNumber > pick.frame then
      match checkForPickResult fuel p pick with
      | none => none
      | some p1 => runPicksLoop fuel frameNumber rest { p1 with picks := rest }
    else some { p with picks := pick :: rest }

/-- The method `runPicks(frameNumber)`. -/
def runPicks (fuel : Nat) (frameNumber : Nat) (p : Picker) : Option Picker :=
  runPicksLoop fuel frameNumber p.picks p

/-! ## Object identifier encoding (`pickVertex`, lines 44-52) and the bounds check of `pick` -/

/-- The colour written for an object identifier by the vertex shader (lines 48-52):
`b0 = float((oid & 0xff000000) >> 24)/255.0`, ..., `b3 = float((oid & 0x000000ff) >> 0)/255.0`. -/
def encodeObjectId (oid : Nat) : Vec4f :=
  { r := FloatVal.ofByte ((oid &&& 0xff000000) >>> 24)
    g := FloatVal.ofByte ((oid &&& 0x00ff0000) >>> 16)
    b := FloatVal.ofByte ((oid &&& 0x0000ff00) >>> 8)
    a := FloatVal.ofByte ((oid &&& 0x000000ff) >>> 0) }

/-- The rejection test of `pick` (line 226): `u < 0.0f || u > 1.0f || v < 0.0f || v > 1.0f`. -/
def coordsRejected (u v : FloatVal) : Bool :=
  u.ltInt 0 || u.gtInt 1 || v.ltInt 0 || v.gtInt 1

/-! ## Views, `getOrCreatePickContext`, `getOrCreateTexture`, `pick` and `handle` -/

namespace FloatVal

/-- Exact difference `a - b`.  When one operand is infinite or NaN the general formula gives
the floating-point answer; for two such operands the answer is the first one when they are
infinities of opposite sign, and NaN otherwise. -/
def sub (a b : FloatVal) : FloatVal :=
  if a.den = 0 ∧ b.den = 0 then
    if (0 < a.num ∧ b.num < 0) ∨ (a.num < 0 ∧ 0 < b.num) then a else { num := 0, den := 0 }
  else { num := a.num * b.den - b.num * a.den, den := a.den * b.den }

/-- Exact quotient `a / b`.  The sign of the divisor goes to the numerator.  A zero divisor
gives the denominator zero, which stands for the non-finite result of the division (the zero
divisor counts as positive); `ltInt` and `gtInt` then answer as the floating-point comparisons
do (`0/0` is neither below nor above anything, `n/0` with `n > 0` is above everything, with
`n < 0` below everything). -/
def div (a b : FloatVal) : FloatVal :=
  if 0 ≤ b.num then { num := a.num * b.den, den := a.den * b.num.toNat }
  else { num := -(a.num * b.den), den := a.den * (-b.num).toNat }

end FloatVal

/-- An `osg::Viewport`: origin and size. -/
structure Viewport where
  x : FloatVal
  y : FloatVal
  width : FloatVal
  height : FloatVal

/-- The part of an `osg::Camera` that `pick` reads: its viewport, if any, and its view and
projection matrices (named by numbers). -/
structure Camera where
  viewport : Option Viewport
  viewMatrix : Nat
  projectionMatrix : Nat

/-- The part of an `osg::View` that the picker reads: its identity (the pointer value), its
camera, if any, and the frame number of its frame stamp, if it has one. -/
structure View where
  id : Nat
  camera : Option Camera
  frameStamp : Option Nat

/-- The constructor `RTTPicker(cameraSize)`: `_rttSize = max(cameraSize, 4)`, `_buffer = 2`, no
pick contexts, an empty queue. -/
def Picker.create (cameraSize : Int) : Picker :=
  { rttSize := max cameraSize 4, buffer := 2, pickContexts := [], picks := [], log := [] }

/-- The search loop of `getOrCreatePickContext` (lines 124-130): the position of the first
context whose `_view` is the given view. -/
def findContext (viewId : Nat) : List PickContext → Option Nat
  | [] => none
  | c :: cs => if c.view = viewId then some 0 else (findContext viewId cs).map (fun i => i + 1)

/-- The method `getOrCreatePickContext(view)` for a non-null view: the picker afterwards and
the position of the returned context.  A new context gets an image of size
`_rttSize x _rttSize`, whose contents `pixels` the source leaves open, and a pick camera with
the node mask of a new `osg::Camera` (all bits set).  Creating a context for a view without
camera dereferences a null pointer (line 171): `none`. -/
def getOrCreatePickContext (p : Picker) (view : View) (pixels : Int → Int → Vec4f) :
    Option (Picker × Nat) :=
  match findContext view.id p.pickContexts with
  | some i => some (p, i)
  | none =>
    match view.camera with
    | none => none
    | some _ =>
      some ({ p with
          pickContexts := p.pickContexts ++
            [{ view := view.id
               image := { s := p.rttSize, t := p.rttSize, read := pixels }
               nodeMask := 4294967295 }] },
        p.pickContexts.length)

/-- The method `getOrCreateTexture(view)`: the picker afterwards (the returned texture is not
represented). -/
def getOrCreateTexture (p : Picker) (view : View) (pixels : Int → Int → Vec4f) :
    Option Picker :=
  match getOrCreatePickContext p view pixels with
  | none => none
  | some (p1, i) =>
    match p1.pickContexts[i]? with
    | none => none
    | some ctx =>
      if ctx.texValid then some p1
      else some { p1 with pickContexts := p1.pickContexts.set i { ctx with texValid := true } }

/-- The choice `callback ? callback : _defaultCallback.get()` (line 209). -/
def callbackToUse (p : Picker) (callback : Option Nat) : Option Nat :=
  match callback with
  | some c => some c
  | none => p.defaultCallback

/-- The normalisation `(mouse - (float)origin) / (float)size` (lines 222-223) in binary32
arithmetic: the `float` parameter `mouse` and the two conversions are binary32 values, and
the difference and the quotient are each rounded to binary32. -/
def normalize (mouse origin size : FloatVal) : FloatVal :=
  ((mouse.roundBinary32.sub origin.roundBinary32).roundBinary32.div
    size.roundBinary32).roundBinary32

/-- The method `pick(view, mouseX, mouseY, callback)`: the returned flag and the picker
afterwards. -/
def pick (p : Picker) (view : Option View) (mouseX mouseY : FloatVal) (callback : Option Nat)
    (pixels : Int → Int → Vec4f) : Option (Bool × Picker) :=
  match view with
  | none => some (false, p)
  | some vw =>
    match callbackToUse p callback with
    | none => some (false, p)
    | some cb =>
      match vw.camera with
      | none => some (false, p)
      | some cam =>
        match cam.viewport with
        | none => some (false, p)
        | some vp =>
          let u := normalize mouseX vp.x vp.width
          let v := normalize mouseY vp.y vp.height
          if coordsRejected u v = true then some (false, p)
          else
            match getOrCreatePickContext p vw pixels with
            | none => none
            | some (p1, i) =>
              match p1.pickContexts[i]? with
              | none => none
              | some ctx =>
                some (true,
                  { p1 with
                    pickContexts := p1.pickContexts.set i
                      { ctx with
                        nodeMask := 4294967295
                        viewMatrix := cam.viewMatrix
                        projectionMatrix := cam.projectionMatrix }
                    picks := p1.picks ++
                      [{ context := i, u := u, v := v, callback := cb,
                         frame := vw.frameStamp.getD 0 }] })

/-- What `handle` reads from its arguments `ea` and `aa`: whether the event type is `FRAME`,
the view `aa.asView()`, the event position, and the answer of `_defaultCallback->accept(ea, aa)`
(consulted only when a default callback is installed). -/
structure Event where
  isFrame : Bool
  view : Option View
  x : FloatVal
  y : FloatVal
  accepted : Bool

/-- The frame stamp `aa.asView() ? aa.asView()->getFrameStamp() : 0L` (line 181). -/
def Event.frameStamp (ea : Event) : Option Nat :=
  match ea.view with
  | none => none
  | some vw => vw.frameStamp

/-- The method `handle(ea, aa)`: the picker afterwards and whether `aa.requestRedraw()` was
called.  The method always returns `false`. -/
def handle (fuel : Nat) (p : Picker) (ea : Event) (pixels : Int → Int → Vec4f) :
    Option (Picker × Bool) :=
  if ea.isFrame = true then
    match ea.frameStamp with
    | some n =>
      match runPicks fuel n p with
      | none => none
      | some p1 => some (p1, !p1.picks.isEmpty)
    | none => some (p, !p.picks.isEmpty)
  else if p.defaultCallback.isSome = true ∧ ea.accepted = true then
    match pick p ea.view ea.x ea.y p.defaultCallback pixels with
    | none => none
    | some r => some (r.2, true)
  else some (p, false)

/-- One call of an operation of the picker that returns. -/
inductive Step : Picker → Picker → Prop
  | context (p : Picker) (view : View) (pixels : Int → Int → Vec4f) (p1 : Picker) (i : Nat) :
      getOrCreatePickContext p view pixels = some (p1, i) → Step p p1
  | texture (p : Picker) (view : View) (pixels : Int → Int → Vec4f) (p1 : Picker) :
      getOrCreateTexture p view pixels = some p1 → Step p p1
  | pick (p : Picker) (view : Option View) (x y : FloatVal) (callback : Option Nat)
      (pixels : Int → Int → Vec4f) (b : Bool) (p1 : Picker) :
      pick p view x y callback pixels = some (b, p1) → Step p p1
  | drain (p : Picker) (fuel n : Nat) (p1 : Picker) :
      runPicks fuel n p = some p1 → Step p p1

/-- The states reachable from a picker without pick contexts and without queued picks by
calls of `getOrCreatePickContext`, `getOrCreateTexture`, `pick` and `runPicks`. -/
inductive Reachable : Picker → Prop
  | empty (p : Picker) : p.pickContexts = [] → p.picks = [] → Reachable p
  | step (p p1 : Picker) : Reachable p → Step p p1 → Reachable p1

/-! ## Definitions used to state and prove the properties -/

/-- The search radius `std::max(_buffer, 1)` as stored in the unsigned `_maxRing`. -/
def maxRingOf (buffer : Int) : Nat := toUnsigned (max buffer 1)

/-- The centre pixel `((int)(u * (float)w), (int)(v * (float)h))`. -/
def centerOf (img : Image) (u v : FloatVal) : Int × Int :=
  ((u.mulFloat img.s).toInt, (v.mulFloat img.t).toInt)

/-- Chebyshev distance between two pixels. -/
def chebyshev (p c : Int × Int) : Nat := max (p.1 - c.1).natAbs (p.2 - c.2).natAbs

/-- The pixel lies inside the `w x h` buffer. -/
def InBounds (w h : Int) (p : Int × Int) : Prop := 0 ≤ p.1 ∧ p.1 < w ∧ 0 ≤ p.2 ∧ p.2 < h

instance instDecidableInBounds (w h : Int) (p : Int × Int) : Decidable (InBounds w h p) := by
  unfold InBounds; infer_instance

/-- The callback invocation determined by a list of visited pixels: a hit with the identifier
of the first pixel that decodes to a non-zero identifier, a miss when there is none. -/
def firstHit (read : Int → Int → Vec4f) : List (Int × Int) → CallbackEvent
  | [] => CallbackEvent.onMiss
  | p :: l =>
    if decodeId (read p.1 p.2) > 0 then CallbackEvent.onHit (decodeId (read p.1 p.2))
    else firstHit read l

/-- Fuel that is enough for the loops of `checkForPickResult` with search margin `buffer`. -/
def spiralFuel (buffer : Int) : Nat :=
  2 * ((2 * maxRingOf buffer + 1) * (2 * maxRingOf buffer)) + 2

/-- Well-formed picker state: `_buffer` is an `int`, and every queued pick points to an
existing pick context. -/
def Picker.WellFormed (p : Picker) : Prop :=
  p.buffer < 2147483648 ∧ ∀ pk ∈ p.picks, pk.context < p.pickContexts.length

/-- The log entry `e` is the callback invocation that resolving `pk` makes. -/
def Resolves (fuel : Nat) (buffer : Int) (ctxs : List PickContext) (pk : Pick)
    (e : Nat × CallbackEvent) : Prop :=
  e.1 = pk.callback ∧ pickOutcome fuel buffer ctxs pk = some e.2

/-- The pick contexts after the render passes of the given resolved picks were switched off. -/
def disableAll (ctxs : List PickContext) (resolved : List Pick) : List PickContext :=
  resolved.foldl (fun c pk => disableContext c pk.context) ctxs

/-- The value lies in the unit interval `[0, 1]`. -/
def FloatVal.InUnit (f : FloatVal) : Prop := 0 < f.den ∧ 0 ≤ f.num ∧ f.num ≤ f.den

instance instDecidableInUnit (f : FloatVal) : Decidable f.InUnit := by
  unfold FloatVal.InUnit; infer_instance

/-- The value is below 0 or above 1. -/
def FloatVal.OutsideUnit (f : FloatVal) : Prop := f.num < 0 ∨ (f.den : Int) < f.num

instance instDecidableOutsideUnit (f : FloatVal) : Decidable f.OutsideUnit := by
  unfold FloatVal.OutsideUnit; infer_instance

/-- The views of the pick contexts, in the order of `_pickContexts`. -/
def Picker.views (p : Picker) : List Nat := p.pickContexts.map (fun c => c.view)

/-- The log entry that resolving `pk` appends (with `onMiss` standing in when the decoding
does not return, which the theorems exclude). -/
def logEntry (fuel : Nat) (buffer : Int) (ctxs : List PickContext) (pk : Pick) :
    Nat × CallbackEvent :=
  (pk.callback, (pickOutcome fuel buffer ctxs pk).getD CallbackEvent.onMiss)

/-- The picker state after `runPicks(n)`, in closed form: the ready front of the queue is
removed, the contexts of the removed picks are switched off, and one log entry per removed
pick is appended in queue order. -/
def drained (fuel n : Nat) (p : Picker) : Picker :=
  { p with
    picks := p.picks.dropWhile (fun pk => decide (pk.frame < n))
    pickContexts := disableAll p.pickContexts (p.picks.takeWhile (fun pk => decide (pk.frame < n)))
    log := p.log ++
      (p.picks.takeWhile (fun pk => decide (pk.frame < n))).map
        (logEntry fuel p.buffer p.pickContexts) }

namespace SpiralIterator

/-- Number of `advance` steps from the initial state to the first state of ring `r`. -/
def ringBase (r : Int) : Int := (2 * r - 1) * (2 * r - 2)

/-- Number of `advance` steps from the initial state to the given state. -/
def pos (it : SpiralIterator) : Int :=
  ringBase it.ring +
    (match it.leg with
     | 0 => it.x + it.ring - 1
     | 1 => (2 * it.ring - 1) + (it.y + it.ring - 1)
     | 2 => 2 * (2 * it.ring - 1) + (it.ring - it.x)
     | 3 => 2 * (2 * it.ring - 1) + 2 * it.ring + (it.ring - it.y)
     | _ => 0)

/-- Number of `advance` steps left before the ring counter exceeds `R`. -/
def stepsLeft (R : Nat) (it : SpiralIterator) : Nat := (ringBase (R + 1) - pos it).toNat

/-- The shape of the states the iterator runs through for `_maxRing = R`: the position lies on
the leg the iterator is in. -/
def OnTrack (R : Nat) (it : SpiralIterator) : Prop :=
  it.maxRing = R ∧ 1 ≤ it.ring ∧ it.ring ≤ R + 1 ∧
  ((it.leg = 0 ∧ it.y = -((it.ring : Int) - 1) ∧ -((it.ring : Int) - 1) ≤ it.x ∧
      it.x < it.ring) ∨
   (it.leg = 1 ∧ it.x = it.ring ∧ -((it.ring : Int) - 1) ≤ it.y ∧ it.y < it.ring) ∨
   (it.leg = 2 ∧ it.y = it.ring ∧ -(it.ring : Int) < it.x ∧ it.x ≤ it.ring) ∨
   (it.leg = 3 ∧ it.x = -(it.ring : Int) ∧ -(it.ring : Int) < it.y ∧ it.y ≤ it.ring))

/-- Two iterators over the same image, centre and search radius. -/
def SameFrame (a b : SpiralIterator) : Prop :=
  a.w = b.w ∧ a.h = b.h ∧ a.offsetX = b.offsetX ∧ a.offsetY = b.offsetY ∧ a.maxRing = b.maxRing

/-- The iterator right after construction, for a buffer `w x h`, search radius `R` and centre
pixel `(cx, cy)`. -/
def startAt (w h : Int) (R : Nat) (cx cy : Int) : SpiralIterator :=
  { ring := 1, maxRing := R, leg := 0, x := 0, y := 0, w := w, h := h, offsetX := cx,
    offsetY := cy, count := 0 }

/-- Every pixel of the list lies within `R` of the centre `(cx, cy)` in both coordinates. -/
def AllWithin (R : Nat) (cx cy : Int) (l : List (Int × Int)) : Prop :=
  ∀ p ∈ l, -(R : Int) ≤ p.1 - cx ∧ p.1 - cx ≤ R ∧ -(R : Int) ≤ p.2 - cy ∧ p.2 - cy ≤ R

end SpiralIterator

/-! ## Example images and picker states -/

/-- The image of size `w x h` whose pixel `(s, t)` holds the encoded identifier `ids s t`. -/
def Image.ofIds (w h : Int) (ids : Int → Int → Nat) : Image :=
  { s := w, t := h, read := fun s t => encodeObjectId (ids s t) }

/-- The normalised coordinate one half. -/
def half : FloatVal := { num := 1, den := 2 }

/-- An 8 x 8 image in which pixel (2,2) encodes object 7 and pixel (6,6) encodes object 9. -/
def twoObjects : Image :=
  Image.ofIds 8 8 (fun s t => if s = 2 ∧ t = 2 then 7 else if s = 6 ∧ t = 6 then 9 else 0)

/-- Scenario D: two picks against the same context, both submitted in frame 3, the first
aimed at pixel (2,2) and the second at pixel (6,6). -/
def scenarioD : Picker :=
  { rttSize := 8
    buffer := 2
    pickContexts := [{ view := 0, image := twoObjects, nodeMask := 4294967295 }]
    picks := [{ context := 0, u := { num := 5, den := 16 }, v := { num := 5, den := 16 },
                callback := 1, frame := 3 },
              { context := 0, u := { num := 13, den := 16 }, v := { num := 13, den := 16 },
                callback := 2, frame := 3 }]
    log := [] }

/-- A queue whose front pick carries frame number 5 and whose second pick, against another
view, carries frame number 1. -/
def blockedPicker : Picker :=
  { rttSize := 4
    buffer := 2
    pickContexts := [{ view := 0, image := Image.ofIds 4 4 (fun _ _ => 0), nodeMask := 4294967295 },
                     { view := 1, image := Image.ofIds 4 4 (fun _ _ => 0), nodeMask := 4294967295 }]
    picks := [{ context := 0, u := half, v := half, callback := 10, frame := 5 },
              { context := 1, u := half, v := half, callback := 11, frame := 1 }]
    log := [] }

/-- A 5 x 5 image whose only non-zero pixel is (2,0), encoding object 42. -/
def objectBelow : Image := Image.ofIds 5 5 (fun s t => if s = 2 ∧ t = 0 then 42 else 0)

/-- A picker with the default margin 2 and one pick at the centre (2,2) of `objectBelow`. -/
def pickAboveObject : Picker :=
  { rttSize := 5
    buffer := 2
    pickContexts := [{ view := 0, image := objectBelow, nodeMask := 4294967295 }]
    picks := [{ context := 0, u := half, v := half, callback := 1, frame := 0 }]
    log := [] }

/-- A 9 x 9 image whose only non-zero pixel is (8,8), encoding object 42. -/
def objectFarAway : Image := Image.ofIds 9 9 (fun s t => if s = 8 ∧ t = 8 then 42 else 0)

/-- A picker with the default margin 2 and one pick at the centre (4,4) of `objectFarAway`. -/
def pickFarFromObject : Picker :=
  { rttSize := 9
    buffer := 2
    pickContexts := [{ view := 0, image := objectFarAway, nodeMask := 4294967295 }]
    picks := [{ context := 0, u := half, v := half, callback := 1, frame := 0 }]
    log := [] }

/-- A 4 x 4 image whose pixel (2,2) has the channel bytes (0,0,0,1); all other pixels are
zero. -/
def sentinelImage : Image :=
  { s := 4
    t := 4
    read := fun s t =>
      if s = 2 ∧ t = 2 then
        { r := FloatVal.ofByte 0, g := FloatVal.ofByte 0, b := FloatVal.ofByte 0,
          a := FloatVal.ofByte 1 }
      else encodeObjectId 0 }

/-- A picker with one pick at the centre (2,2) of `sentinelImage`. -/
def pickOnSentinel : Picker :=
  { rttSize := 4
    buffer := 2
    pickContexts := [{ view := 0, image := sentinelImage, nodeMask := 4294967295 }]
    picks := [{ context := 0, u := half, v := half, callback := 1, frame := 0 }]
    log := [] }

/-- A 4 x 4 image whose pixel (2,2) encodes object 42 and whose pixel (3,2) encodes object 7. -/
def objectAtCenter : Image :=
  Image.ofIds 4 4 (fun s t => if s = 2 ∧ t = 2 then 42 else if s = 3 ∧ t = 2 then 7 else 0)

/-- Scenario B: one pick at the centre (2,2) of `objectAtCenter`. -/
def scenarioB : Picker :=
  { rttSize := 4
    buffer := 2
    pickContexts := [{ view := 0, image := objectAtCenter, nodeMask := 4294967295 }]
    picks := [{ context := 0, u := half, v := half, callback := 1, frame := 0 }]
    log := [] }

/-- A view (pointer value 7) with a camera whose viewport is 800 x 600 at the origin, at the
given frame number. -/
def viewAtFrame (n : Nat) : View :=
  { id := 7
    camera := some
      { viewport := some
          { x := FloatVal.ofInt 0, y := FloatVal.ofInt 0, width := FloatVal.ofInt 800,
            height := FloatVal.ofInt 600 }
        viewMatrix := 1
        projectionMatrix := 2 }
    frameStamp := some n }

/-- Buffer contents that decode to identifier 0 everywhere. -/
def blankPixels : Int → Int → Vec4f := fun _ _ => encodeObjectId 0

/-- A `FRAME` event seen from a view whose frame stamp shows frame `n`. -/
def frameEvent (n : Nat) : Event :=
  { isFrame := true
    view := some { id := 0, camera := none, frameStamp := some n }
    x := FloatVal.ofInt 0
    y := FloatVal.ofInt 0
    accepted := false }

/-- The picker state after a new picker accepted one pick, with callback 1, at the middle of
the viewport of `viewAtFrame 1`: both normalised coordinates are the binary32 value `1/2`,
which `roundBinary32` gives as `2^23 / 2^24`. -/
def afterOnePick : Picker :=
  { rttSize := 256
    buffer := 2
    pickContexts :=
      [{ view := 7
         image := { s := 256, t := 256, read := blankPixels }
         nodeMask := 4294967295
         viewMatrix := 1
         projectionMatrix := 2 }]
    picks := [{ context := 0, u := { num := 8388608, den := 16777216 },
                v := { num := 8388608, den := 16777216 }, callback := 1, frame := 1 }]
    log := [] }

/-- A view (pointer value 9) without frame stamp whose camera has a 1000 x 600 viewport with
origin `(-2^-16, 0)`. -/
def shiftedView : View :=
  { id := 9
    camera := some
      { viewport := some
          { x := { num := -1, den := 65536 }, y := FloatVal.ofInt 0,
            width := FloatVal.ofInt 1000, height := FloatVal.ofInt 600 }
        viewMatrix := 1
        projectionMatrix := 2 }
    frameStamp := none }

/-- A second view (pointer value 8) with a camera like that of `viewAtFrame`, at the given
frame number of its own frame stamp. -/
def secondViewAtFrame (n : Nat) : View := { viewAtFrame n with id := 8 }

/-- The picker state after a new picker with 4 x 4 images accepted three picks at the middle
of the viewport: callback 1 on view 7 in frame 3 of that view, callback 2 on view 8 in frame 7
of that view, and callback 3 on view 7, still in its frame 3. -/
def interleavedPicker : Picker :=
  { rttSize := 4
    buffer := 2
    pickContexts :=
      [{ view := 7
         image := { s := 4, t := 4, read := blankPixels }
         nodeMask := 4294967295
         viewMatrix := 1
         projectionMatrix := 2 },
       { view := 8
         image := { s := 4, t := 4, read := blankPixels }
         nodeMask := 4294967295
         viewMatrix := 1
         projectionMatrix := 2 }]
    picks := [{ context := 0, u := { num := 8388608, den := 16777216 },
                v := { num := 8388608, den := 16777216 }, callback := 1, frame := 3 },
              { context := 1, u := { num := 8388608, den := 16777216 },
                v := { num := 8388608, den := 16777216 }, callback := 2, frame := 7 },
              { context := 0, u := { num := 8388608, den := 16777216 },
                v := { num := 8388608, den := 16777216 }, callback := 3, frame := 3 }]
    log := [] }

/-- The normalised coordinate one, which the bounds check of `pick` accepts. -/
def one : FloatVal := { num := 1, den := 1 }

/-! ## The spiral: progress and shape of the iterator states -/

namespace SpiralIterator

theorem ringBase_succ (r : Int) : ringBase (r + 1) = ringBase r + 8 * r - 2 := by
  unfold ringBase; ring

theorem ringBase_mono {a b : Int} (ha : 1 ≤ a) (hab : a ≤ b) : ringBase a ≤ ringBase b := by
  unfold ringBase; nlinarith

theorem pos_lt_of_onTrack {R : Nat} {it : SpiralIterator} (ht : OnTrack R it) :
    ringBase it.ring ≤ pos it ∧ pos it < ringBase ((it.ring : Int) + 1) := by
  obtain ⟨_, h1, _, hl⟩ := ht
  rw [ringBase_succ]
  unfold pos
  rcases hl with ⟨hl, h2, h3, h4⟩ | ⟨hl, h2, h3, h4⟩ | ⟨hl, h2, h3, h4⟩ | ⟨hl, h2, h3, h4⟩ <;>
    simp only [hl] <;> omega

theorem advance_spec {R : Nat} {it : SpiralIterator} (hR : R < 2147483648)
    (ht : OnTrack R it) (hr : it.ring ≤ R) :
    OnTrack R it.advance ∧ pos it.advance = pos it + 1 ∧ SameFrame it it.advance ∧
      it.advance.count = it.count := by
  obtain ⟨ring, maxRing, leg, x, y, w, h, ox, oy, count⟩ := it
  obtain ⟨hm, h1, h2, hl⟩ := ht
  simp only at hm h1 h2 hl hr
  have hb := ringBase_succ (ring : Int)
  rcases hl with ⟨hl, h3, h4, h5⟩ | ⟨hl, h3, h4, h5⟩ | ⟨hl, h3, h4, h5⟩ | ⟨hl, h3, h4, h5⟩
  · subst hl
    by_cases hx : x + 1 = (ring : Int)
    · have hu : toUnsigned (x + 1) = ring := by unfold toUnsigned; omega
      simp only [advance, hu, if_true]
      refine ⟨⟨hm, h1, h2, Or.inr (Or.inl ⟨rfl, ?_, ?_, ?_⟩)⟩, ?_, ?_, ?_⟩ <;>
        (try unfold pos) <;> (try unfold SameFrame) <;> (try dsimp only) <;>
        first | trivial | omega
    · have hu : toUnsigned (x + 1) ≠ ring := by unfold toUnsigned; omega
      simp only [advance, hu, if_false]
      refine ⟨⟨hm, h1, h2, Or.inl ⟨rfl, ?_, ?_, ?_⟩⟩, ?_, ?_, ?_⟩ <;>
        (try unfold pos) <;> (try unfold SameFrame) <;> (try dsimp only) <;>
        first | trivial | omega
  · subst hl
    by_cases hx : y + 1 = (ring : Int)
    · have hu : toUnsigned (y + 1) = ring := by unfold toUnsigned; omega
      simp only [advance, hu, if_true]
      refine ⟨⟨hm, h1, h2, Or.inr (Or.inr (Or.inl ⟨rfl, ?_, ?_, ?_⟩))⟩, ?_, ?_, ?_⟩ <;>
        (try unfold pos) <;> (try unfold SameFrame) <;> (try dsimp only) <;>
        first | trivial | omega
    · have hu : toUnsigned (y + 1) ≠ ring := by unfold toUnsigned; omega
      simp only [advance, hu, if_false]
      refine ⟨⟨hm, h1, h2, Or.inr (Or.inl ⟨rfl, ?_, ?_, ?_⟩)⟩, ?_, ?_, ?_⟩ <;>
        (try unfold pos) <;> (try unfold SameFrame) <;> (try dsimp only) <;>
        first | trivial | omega
  · subst hl
    by_cases hx : -(x - 1) = (ring : Int)
    · have hu : toUnsigned (-(x - 1)) = ring := by unfold toUnsigned; omega
      simp only [advance, hu, if_true]
      refine ⟨⟨hm, h1, h2, Or.inr (Or.inr (Or.inr ⟨rfl, ?_, ?_, ?_⟩))⟩, ?_, ?_, ?_⟩ <;>
        (try unfold pos) <;> (try unfold SameFrame) <;> (try dsimp only) <;>
        first | trivial | omega
    · have hu : toUnsigned (-(x - 1)) ≠ ring := by unfold toUnsigned; omega
      simp only [advance, hu, if_false]
      refine ⟨⟨hm, h1, h2, Or.inr (Or.inr (Or.inl ⟨rfl, ?_, ?_, ?_⟩))⟩, ?_, ?_, ?_⟩ <;>
        (try unfold pos) <;> (try unfold SameFrame) <;> (try dsimp only) <;>
        first | trivial | omega
  · subst hl
    by_cases hx : -(y - 1) = (ring : Int)
    · have hu : toUnsigned (-(y - 1)) = ring := by unfold toUnsigned; omega
      have hw : (ring + 1) % 4294967296 = ring + 1 := by omega
      simp only [advance, hu, if_true, hw]
      refine ⟨⟨hm, ?_, ?_, Or.inl ⟨rfl, ?_, ?_, ?_⟩⟩, ?_, ?_, ?_⟩ <;>
        (try unfold pos) <;> (try unfold SameFrame) <;> (try dsimp only) <;> (try push_cast) <;>
        first | trivial | omega
    · have hu : toUnsigned (-(y - 1)) ≠ ring := by unfold toUnsigned; omega
      simp only [advance, hu, if_false]
      refine ⟨⟨hm, h1, h2, Or.inr (Or.inr (Or.inr ⟨rfl, ?_, ?_, ?_⟩))⟩, ?_, ?_, ?_⟩ <;>
        (try unfold pos) <;> (try unfold SameFrame) <;> (try dsimp only) <;>
        first | trivial | omega

theorem stepsLeft_pos {R : Nat} {it : SpiralIterator} (ht : OnTrack R it) (hr : it.ring ≤ R) :
    pos it < ringBase ((R : Int) + 1) := by
  have h1 := (pos_lt_of_onTrack ht).2
  have h2 : ringBase ((it.ring : Int) + 1) ≤ ringBase ((R : Int) + 1) :=
    ringBase_mono (by omega) (by omega)
  omega

theorem spin_spec {R : Nat} (hR : R < 2147483648) :
    ∀ (fuel : Nat) (it : SpiralIterator), OnTrack R it → it.ring ≤ R → stepsLeft R it ≤ fuel →
      ∃ it1, spin fuel it = some it1 ∧ OnTrack R it1 ∧ pos it < pos it1 ∧ SameFrame it it1 ∧
        it1.count = it.count ∧ (it1.ring ≤ R → it1.outOfBounds = false) := by
  intro fuel
  induction fuel with
  | zero =>
    intro it ht hr hf
    have := stepsLeft_pos ht hr
    unfold stepsLeft at hf
    omega
  | succ n ih =>
    intro it ht hr hf
    obtain ⟨ha, hp, hs, hc⟩ := advance_spec hR ht hr
    have hlt := stepsLeft_pos ht hr
    by_cases hcond : it.advance.ring ≤ it.advance.maxRing ∧ it.advance.outOfBounds = true
    · have hr1 : it.advance.ring ≤ R := by have := ha.1; omega
      have hf1 : stepsLeft R it.advance ≤ n := by
        unfold stepsLeft at hf ⊢
        omega
      obtain ⟨it1, e1, t1, p1, s1, c1, b1⟩ := ih it.advance ha hr1 hf1
      refine ⟨it1, ?_, t1, by omega, ?_, by omega, b1⟩
      · simp only [spin, hcond, and_self, if_true, e1]
      · unfold SameFrame at hs s1 ⊢
        refine ⟨?_, ?_, ?_, ?_, ?_⟩ <;> omega
    · refine ⟨it.advance, ?_, ha, by omega, hs, hc, ?_⟩
      · simp only [spin, hcond, if_false]
      · intro hle
        have hm := ha.1
        by_contra hb
        apply hcond
        refine ⟨by omega, ?_⟩
        simpa using hb

theorem onTrack_radius {R : Nat} {it : SpiralIterator} (ht : OnTrack R it) (hr : it.ring ≤ R) :
    -(R : Int) ≤ it.x ∧ it.x ≤ R ∧ -(R : Int) ≤ it.y ∧ it.y ≤ R := by
  obtain ⟨_, h1, _, hl⟩ := ht
  rcases hl with ⟨_, h2, h3, h4⟩ | ⟨_, h2, h3, h4⟩ | ⟨_, h2, h3, h4⟩ | ⟨_, h2, h3, h4⟩ <;>
    omega

theorem outOfBounds_eq_false {it : SpiralIterator} (hb : it.outOfBounds = false) :
    InBounds it.w it.h (it.s, it.t) := by
  unfold outOfBounds at hb
  simp only [Bool.or_eq_false_iff, decide_eq_false_iff_not] at hb
  unfold InBounds s t
  simp only
  omega

theorem visited_spec {R : Nat} (hR : R < 2147483648) :
    ∀ (k fuel : Nat) (it : SpiralIterator), OnTrack R it → it.ring ≤ R → stepsLeft R it ≤ fuel →
      2 * stepsLeft R it + (if it.count = 0 then 1 else 0) < k →
      ∃ l, visited fuel k it = some l ∧ AllWithin R it.offsetX it.offsetY l ∧
        (∀ p ∈ l, (it.count = 0 ∧ p = (it.s, it.t)) ∨ InBounds it.w it.h p) ∧
        (it.count = 0 → ∃ l1, l = (it.s, it.t) :: l1 ∧ ∀ p ∈ l1, InBounds it.w it.h p) := by
  intro k
  induction k with
  | zero => intro fuel it _ _ _ hk; omega
  | succ n ih =>
    intro fuel it ht hr hf hk
    have ht0 : OnTrack R it.tick := ht
    have hf0 : stepsLeft R it.tick ≤ fuel := hf
    have hs0 : stepsLeft R it.tick = stepsLeft R it := rfl
    by_cases hc : it.count = 0
    · have hc0 : it.tick.count = 1 := by simp [tick, hc]
      have hk0 : 2 * stepsLeft R it.tick + (if it.tick.count = 0 then 1 else 0) < n := by
        rw [hs0, hc0]
        simp only [hc, if_true] at hk
        simp only [one_ne_zero, if_false]
        omega
      obtain ⟨l, e, hl, hb, _⟩ := ih fuel _ ht0 hr hf hk0
      have hb1 : ∀ p ∈ l, InBounds it.w it.h p := by
        intro p hp
        rcases hb p hp with h | h
        · rw [hc0] at h
          exact absurd h.1 one_ne_zero
        · exact h
      refine ⟨(it.tick.s, it.tick.t) :: l, ?_, ?_, ?_, ?_⟩
      · simp only [visited, next, hc, if_true, e]
      · intro p hp
        rcases List.mem_cons.mp hp with rfl | hp
        · have := onTrack_radius ht hr
          simp only [s, t, tick]
          omega
        · exact hl p hp
      · intro p hp
        rcases List.mem_cons.mp hp with rfl | hp
        · exact Or.inl ⟨hc, rfl⟩
        · exact Or.inr (hb1 p hp)
      · intro _
        exact ⟨l, rfl, hb1⟩
    · obtain ⟨it1, e1, t1, p1, s1, c1, b1⟩ := spin_spec hR fuel _ ht0 hr hf0
      have p1 : pos it < pos it1 := p1
      have s1 : SameFrame it it1 := s1
      by_cases hr1 : it1.ring ≤ R
      · have hlt := stepsLeft_pos ht hr
        have hk1 : 2 * stepsLeft R it1 + (if it1.count = 0 then 1 else 0) < n := by
          unfold stepsLeft at hk ⊢
          split_ifs at hk ⊢ <;> omega
        have hf1 : stepsLeft R it1 ≤ fuel := by
          unfold stepsLeft at hf ⊢
          omega
        obtain ⟨l, e, hl, hb, _⟩ := ih fuel it1 t1 hr1 hf1 hk1
        have hin := outOfBounds_eq_false (b1 hr1)
        obtain ⟨sw, sh, sx, sy, _⟩ := s1
        refine ⟨(it1.s, it1.t) :: l, ?_, ?_, ?_, ?_⟩
        · have hd : decide (it1.ring ≤ it1.maxRing) = true := by
            have := t1.1
            simp only [decide_eq_true_eq]; omega
          simp only [visited, next, hc, if_false, e1, hd, e]
        · intro p hp
          rcases List.mem_cons.mp hp with rfl | hp
          · have := onTrack_radius t1 hr1
            simp only [s, t]
            omega
          · have := hl p hp
            omega
        · intro p hp
          right
          rw [sw, sh]
          rcases List.mem_cons.mp hp with rfl | hp
          · exact hin
          · rcases hb p hp with h | h
            · rw [h.2]; exact hin
            · exact h
        · intro h0; exact absurd h0 hc
      · refine ⟨[], ?_, ?_, ?_, ?_⟩
        · have hd : decide (it1.ring ≤ it1.maxRing) = false := by
            have := t1.1
            simp only [decide_eq_false_iff_not]; omega
          simp only [visited, next, hc, if_false, e1, hd]
        · intro p hp; cases hp
        · intro p hp; cases hp
        · intro h0; exact absurd h0 hc

theorem scan_eq_of_visited (read : Int → Int → Vec4f) (fuel : Nat) :
    ∀ (k : Nat) (it : SpiralIterator) (l : List (Int × Int)),
      visited fuel k it = some l → scan read fuel k it = some (firstHit read l) := by
  intro k
  induction k with
  | zero => intro it l h; simp [visited] at h
  | succ n ih =>
    intro it l h
    unfold visited at h
    unfold scan
    cases hn : next fuel it with
    | none => rw [hn] at h; simp at h
    | some r =>
      obtain ⟨b, it1⟩ := r
      rw [hn] at h
      cases b with
      | false =>
        simp only [Option.some.injEq] at h
        subst h
        rfl
      | true =>
        simp only at h
        cases hv : visited fuel n it1 with
        | none => rw [hv] at h; simp at h
        | some l1 =>
          rw [hv] at h
          simp only [Option.some.injEq] at h
          subst h
          simp only [firstHit]
          split_ifs with hpos
          · rfl
          · exact ih it1 l1 hv

end SpiralIterator

/-! ## Resolving one pick -/

theorem maxRingOf_bounds {buffer : Int} (hb : buffer < 2147483648) :
    1 ≤ maxRingOf buffer ∧ maxRingOf buffer < 2147483648 ∧
      ((maxRingOf buffer : Nat) : Int) = max buffer 1 := by
  unfold maxRingOf toUnsigned
  omega

theorem init_onTrack (w h : Int) (u v : FloatVal) {buffer : Int} (hb : buffer < 2147483648) :
    SpiralIterator.OnTrack (maxRingOf buffer) (SpiralIterator.init w h (max buffer 1) u v) := by
  have h1 := maxRingOf_bounds hb
  refine ⟨rfl, Nat.le_refl 1, ?_, Or.inl ⟨rfl, ?_, ?_, ?_⟩⟩ <;>
    simp only [SpiralIterator.init] <;> omega

theorem init_stepsLeft (w h : Int) (u v : FloatVal) (buffer : Int) :
    2 * SpiralIterator.stepsLeft (maxRingOf buffer)
      (SpiralIterator.init w h (max buffer 1) u v) + 2 = spiralFuel buffer := by
  have e : SpiralIterator.stepsLeft (maxRingOf buffer)
      (SpiralIterator.init w h (max buffer 1) u v) =
      (2 * maxRingOf buffer + 1) * (2 * maxRingOf buffer) := by
    unfold SpiralIterator.stepsLeft SpiralIterator.pos SpiralIterator.ringBase
    simp only [SpiralIterator.init]
    have : (2 * ((maxRingOf buffer : Int) + 1) - 1) * (2 * ((maxRingOf buffer : Int) + 1) - 2) -
        ((2 * ((1 : Nat) : Int) - 1) * (2 * ((1 : Nat) : Int) - 2) + (0 + ((1 : Nat) : Int) - 1)) =
        (((2 * maxRingOf buffer + 1) * (2 * maxRingOf buffer) : Nat) : Int) := by
      push_cast; ring
    rw [this, Int.toNat_ofNat]
  rw [e]; rfl

theorem pickOutcome_spec (fuel : Nat) (buffer : Int) (ctxs : List PickContext) (pk : Pick)
    (ctx : PickContext) (hb : buffer < 2147483648) (hc : ctxs[pk.context]? = some ctx)
    (hf : spiralFuel buffer ≤ fuel) :
    ∃ l, SpiralIterator.visited fuel fuel
          (SpiralIterator.init ctx.image.s ctx.image.t (max buffer 1) pk.u pk.v) = some l ∧
      pickOutcome fuel buffer ctxs pk = some (firstHit ctx.image.read l) ∧
      (∀ p ∈ l, chebyshev p (centerOf ctx.image pk.u pk.v) ≤ maxRingOf buffer) ∧
      (∃ l1, l = centerOf ctx.image pk.u pk.v :: l1 ∧
        ∀ p ∈ l1, InBounds ctx.image.s ctx.image.t p) := by
  have hR := maxRingOf_bounds hb
  have ht := init_onTrack ctx.image.s ctx.image.t pk.u pk.v hb
  have hs := init_stepsLeft ctx.image.s ctx.image.t pk.u pk.v buffer
  have hr : (SpiralIterator.init ctx.image.s ctx.image.t (max buffer 1) pk.u pk.v).ring ≤
      maxRingOf buffer := hR.1
  have h0 : (SpiralIterator.init ctx.image.s ctx.image.t (max buffer 1) pk.u pk.v).count = 0 :=
    rfl
  obtain ⟨l, e, hw, _, hin⟩ := SpiralIterator.visited_spec hR.2.1 fuel fuel _ ht hr
    (by omega) (by rw [h0]; simp only [if_true]; omega)
  refine ⟨l, e, ?_, ?_, ?_⟩
  · unfold pickOutcome
    rw [hc]
    exact SpiralIterator.scan_eq_of_visited _ _ _ _ _ e
  · intro p hp
    have := hw p hp
    unfold chebyshev centerOf
    simp only [SpiralIterator.init] at this
    simp only
    omega
  · obtain ⟨l1, e1, h1⟩ := hin h0
    refine ⟨l1, ?_, h1⟩
    rw [e1]
    simp [SpiralIterator.s, SpiralIterator.t, SpiralIterator.init, centerOf]

/-! ## The drain loop -/

theorem pickOutcome_disableContext (fuel : Nat) (buffer : Int) (ctxs : List PickContext)
    (i : Nat) (pk : Pick) :
    pickOutcome fuel buffer (disableContext ctxs i) pk = pickOutcome fuel buffer ctxs pk := by
  unfold disableContext
  cases hi : ctxs[i]? with
  | none => rfl
  | some c =>
    simp only
    unfold pickOutcome
    by_cases hij : i = pk.context
    · have hlt : i < ctxs.length := by
        by_contra hge
        rw [List.getElem?_eq_none (by omega)] at hi
        cases hi
      rw [← hij, List.getElem?_set, if_pos rfl, if_pos hlt, hi]
    · rw [List.getElem?_set, if_neg hij]

theorem runPicksLoop_spec (fuel n : Nat) :
    ∀ (q : List Pick) (p : Picker),
      (∀ pk ∈ q, ∃ ev, pickOutcome fuel p.buffer p.pickContexts pk = some ev) →
      ∃ es, runPicksLoop fuel n q p =
          some { p with
            picks := q.dropWhile (fun pk => decide (pk.frame < n))
            pickContexts := disableAll p.pickContexts
              (q.takeWhile (fun pk => decide (pk.frame < n)))
            log := p.log ++ es } ∧
        List.Forall₂ (Resolves fuel p.buffer p.pickContexts)
          (q.takeWhile (fun pk => decide (pk.frame < n))) es := by
  intro q
  induction q with
  | nil =>
    intro p _
    exact ⟨[], by simp [runPicksLoop, disableAll], List.Forall₂.nil⟩
  | cons pk rest ih =>
    intro p hq
    by_cases h : pk.frame < n
    · obtain ⟨ev, hev⟩ := hq pk (List.mem_cons_self _ _)
      have hrest : ∀ pk1 ∈ rest, ∃ ev1,
          pickOutcome fuel p.buffer (disableContext p.pickContexts pk.context) pk1 = some ev1 := by
        intro pk1 h1
        rw [pickOutcome_disableContext]
        exact hq pk1 (List.mem_cons_of_mem _ h1)
      obtain ⟨es, e, hes⟩ := ih
        { p with
          pickContexts := disableContext p.pickContexts pk.context
          log := p.log ++ [(pk.callback, ev)]
          picks := rest } hrest
      refine ⟨(pk.callback, ev) :: es, ?_, ?_⟩
      · have hgt : n > pk.frame := h
        simp only [runPicksLoop, hgt, if_true, checkForPickResult, hev, e, h, decide_True,
          List.dropWhile_cons_of_pos, List.takeWhile_cons_of_pos, disableAll, List.foldl_cons,
          List.append_assoc, List.singleton_append]
      · rw [List.takeWhile_cons_of_pos (by simpa using h)]
        refine List.Forall₂.cons ⟨rfl, hev⟩ (hes.imp ?_)
        intro a b hab
        refine ⟨hab.1, ?_⟩
        have := hab.2
        simp only at this
        rw [pickOutcome_disableContext] at this
        exact this
    · refine ⟨[], ?_, ?_⟩
      · have hgt : ¬ n > pk.frame := h
        simp [runPicksLoop, hgt, h, disableAll]
      · rw [List.takeWhile_cons_of_neg (by simpa using h)]
        exact List.Forall₂.nil

theorem runPicks_spec (fuel n : Nat) (p : Picker) (hwf : p.WellFormed)
    (hf : spiralFuel p.buffer ≤ fuel) :
    ∃ es, runPicks fuel n p =
        some { p with
          picks := p.picks.dropWhile (fun pk => decide (pk.frame < n))
          pickContexts := disableAll p.pickContexts
            (p.picks.takeWhile (fun pk => decide (pk.frame < n)))
          log := p.log ++ es } ∧
      List.Forall₂ (Resolves fuel p.buffer p.pickContexts)
        (p.picks.takeWhile (fun pk => decide (pk.frame < n))) es := by
  apply runPicksLoop_spec
  intro pk hpk
  have hlt := hwf.2 pk hpk
  obtain ⟨l, _, h, _⟩ := pickOutcome_spec fuel p.buffer p.pickContexts pk
    p.pickContexts[pk.context] hwf.1 (List.getElem?_eq_getElem hlt) hf
  exact ⟨_, h⟩

theorem takeWhile_length_gt {α : Type} (f : α → Bool) :
    ∀ (l : List α) (i : Nat), i < l.length →
      (∀ j (hj : j < l.length), j ≤ i → f l[j] = true) → i < (l.takeWhile f).length := by
  intro l
  induction l with
  | nil => intro i hi; simp at hi
  | cons a l ih =>
    intro i hi hall
    have ha : f a = true := hall 0 (by simp) (by omega)
    rw [List.takeWhile_cons_of_pos ha]
    cases i with
    | zero => simp
    | succ i =>
      simp only [List.length_cons, Nat.add_lt_add_iff_right]
      apply ih i (by simpa using hi)
      intro j hj hji
      have := hall (j + 1) (by simpa using hj) (by omega)
      simpa using this

theorem takeWhile_all {α : Type} (f : α → Bool) (l : List α) :
    ∀ a ∈ l.takeWhile f, f a = true := by
  intro a ha
  exact List.mem_takeWhile_imp ha

theorem takeWhile_length_succ {α : Type} (f : α → Bool) :
    ∀ (l : List α) (i : Nat) (h : i + 1 < l.length), i < (l.takeWhile f).length →
      f l[i + 1] = true → i + 1 < (l.takeWhile f).length := by
  intro l
  induction l with
  | nil => intro i h; simp at h
  | cons a l ih =>
    intro i h hi hf
    by_cases ha : f a = true
    · rw [List.takeWhile_cons_of_pos ha] at hi ⊢
      simp only [List.length_cons, Nat.add_lt_add_iff_right] at hi ⊢
      cases i with
      | zero =>
        have h1 : 0 < l.length := by simpa using h
        have hf1 : f l[0] = true := by simpa using hf
        cases l with
        | nil => simp at h1
        | cons b l =>
          have hb : f b = true := by simpa using hf1
          rw [List.takeWhile_cons_of_pos hb]
          simp
      | succ i =>
        apply ih i (by simpa using h) (by omega)
        simpa using hf
    · rw [List.takeWhile_cons_of_neg ha] at hi
      simp at hi

theorem takeWhile_getElem {α : Type} (f : α → Bool) :
    ∀ (l : List α) (i : Nat) (h : i < (l.takeWhile f).length) (hi : i < l.length),
      (l.takeWhile f)[i] = l[i] ∧ f l[i] = true := by
  intro l
  induction l with
  | nil => intro i h hi; simp at hi
  | cons a l ih =>
    intro i h hi
    by_cases ha : f a = true
    · simp only [List.takeWhile_cons_of_pos ha] at h ⊢
      cases i with
      | zero => exact ⟨rfl, ha⟩
      | succ i =>
        simp only [List.length_cons, Nat.add_lt_add_iff_right] at h hi
        simpa using ih i h hi
    · simp only [List.takeWhile_cons_of_neg ha, List.length_nil] at h
      omega

theorem forall₂_getElem {α β : Type} {r : α → β → Prop} :
    ∀ {l : List α} {es : List β}, List.Forall₂ r l es →
      ∀ (i : Nat) (hi : i < l.length), ∃ e, es[i]? = some e ∧ r l[i] e := by
  intro l es h
  induction h with
  | nil => intro i hi; simp at hi
  | cons hab _ ih =>
    intro i hi
    cases i with
    | zero =>
      refine ⟨_, ?_, hab⟩
      simp
    | succ i =>
      simp only [List.length_cons, Nat.add_lt_add_iff_right] at hi
      simpa using ih i hi

/-! ## Claims about the pick queue -/

/-- C1: for every well-formed picker state and frame number `n`, `runPicks(n)` returns, the
queue splits into the picks it resolved (one log entry each, in order) followed by the picks it
left queued, every resolved pick has submission frame `< n`, and a pick whose submission frame
is `>= n` (in particular `= n`) is not among the resolved ones. -/
theorem runPicks_never_resolves_frame_ge (fuel n : Nat) (p : Picker) (hwf : p.WellFormed)
    (hf : spiralFuel p.buffer ≤ fuel) :
    ∃ (resolved rest : List Pick) (es : List (Nat × CallbackEvent)) (p1 : Picker),
      runPicks fuel n p = some p1 ∧ p.picks = resolved ++ rest ∧ p1.picks = rest ∧
      p1.log = p.log ++ es ∧
      List.Forall₂ (Resolves fuel p.buffer p.pickContexts) resolved es ∧
      (∀ pk ∈ resolved, pk.frame < n) ∧
      (∀ i (hi : i < p.picks.length), n ≤ p.picks[i].frame → resolved.length ≤ i) := by
  obtain ⟨es, e, hes⟩ := runPicks_spec fuel n p hwf hf
  have hsplit := List.takeWhile_append_dropWhile (fun pk : Pick => decide (pk.frame < n)) p.picks
  have hall : ∀ pk ∈ p.picks.takeWhile (fun pk => decide (pk.frame < n)), pk.frame < n := by
    intro pk hpk
    simpa using takeWhile_all _ _ pk hpk
  refine ⟨_, _, es, _, e, hsplit.symm, rfl, rfl, hes, hall, ?_⟩
  intro i hi hge
  by_contra hlt
  have hlt : i < (p.picks.takeWhile (fun pk => decide (pk.frame < n))).length := by omega
  have hmem : p.picks[i] ∈ p.picks.takeWhile (fun pk => decide (pk.frame < n)) := by
    have key : ∀ (q : List Pick),
        q = p.picks.takeWhile (fun pk => decide (pk.frame < n)) ++
          p.picks.dropWhile (fun pk => decide (pk.frame < n)) →
        ∀ (hq : i < q.length), q[i] ∈ p.picks.takeWhile (fun pk => decide (pk.frame < n)) := by
      intro q hq hiq
      subst hq
      rw [List.getElem_append_left hlt]
      exact List.getElem_mem _
    exact key p.picks hsplit.symm hi
  have := hall _ hmem
  omega

/-- C1 at Scenario D, drained with the submission frame number 3 of both picks. -/
theorem runPicks_never_resolves_frame_ge_witness :
    scenarioD.WellFormed ∧ spiralFuel scenarioD.buffer ≤ 42 ∧
    ∃ (resolved rest : List Pick) (es : List (Nat × CallbackEvent)) (p1 : Picker),
      runPicks 42 3 scenarioD = some p1 ∧ scenarioD.picks = resolved ++ rest ∧
      p1.picks = rest ∧ p1.log = scenarioD.log ++ es ∧
      List.Forall₂ (Resolves 42 scenarioD.buffer scenarioD.pickContexts) resolved es ∧
      (∀ pk ∈ resolved, pk.frame < 3) ∧
      (∀ i (hi : i < scenarioD.picks.length), 3 ≤ scenarioD.picks[i].frame →
        resolved.length ≤ i) :=
  ⟨⟨by decide, by decide⟩, by decide,
    runPicks_never_resolves_frame_ge 42 3 scenarioD ⟨by decide, by decide⟩ (by decide)⟩

/-- C2 (as stated, refuted): in `blockedPicker` the second pick has submission frame 1, yet
the drain `runPicks(2)` stops at the front pick (frame 5): it leaves the whole queue in place
and invokes no callback. -/
theorem runPicks_blocked_behind_front :
    ({ context := 1, u := half, v := half, callback := 11, frame := 1 } : Pick) ∈
        blockedPicker.picks ∧
      1 < 2 ∧
      (runPicks 42 2 blockedPicker).map (fun p => (p.picks, p.log)) =
        some (blockedPicker.picks, []) := by
  decide

/-- C2 (amended): for every well-formed picker state, if the pick at queue position `i` and
every pick queued ahead of it have submission frame `< n`, then `runPicks(n)` returns, resolves
that pick (it lies in the resolved front segment, which has one log entry per pick, in order)
and removes it from the queue. -/
theorem runPicks_resolves_unblocked (fuel n : Nat) (p : Picker) (hwf : p.WellFormed)
    (hf : spiralFuel p.buffer ≤ fuel) (i : Nat) (hi : i < p.picks.length)
    (hfront : ∀ j (hj : j < p.picks.length), j ≤ i → p.picks[j].frame < n) :
    ∃ (resolved rest : List Pick) (es : List (Nat × CallbackEvent)) (p1 : Picker),
      runPicks fuel n p = some p1 ∧ p.picks = resolved ++ rest ∧ p1.picks = rest ∧
      p1.log = p.log ++ es ∧
      List.Forall₂ (Resolves fuel p.buffer p.pickContexts) resolved es ∧
      i < resolved.length := by
  obtain ⟨es, e, hes⟩ := runPicks_spec fuel n p hwf hf
  have hsplit := List.takeWhile_append_dropWhile (fun pk : Pick => decide (pk.frame < n)) p.picks
  refine ⟨_, _, es, _, e, hsplit.symm, rfl, rfl, hes, ?_⟩
  apply takeWhile_length_gt _ _ _ hi
  intro j hj hji
  simpa using hfront j hj hji

/-- C2 (amended) at Scenario D: the second pick (position 1) is resolved by `runPicks(4)`. -/
theorem runPicks_resolves_unblocked_witness :
    scenarioD.WellFormed ∧ spiralFuel scenarioD.buffer ≤ 42 ∧
    (∀ j (hj : j < scenarioD.picks.length), j ≤ 1 → scenarioD.picks[j].frame < 4) ∧
    ∃ (resolved rest : List Pick) (es : List (Nat × CallbackEvent)) (p1 : Picker),
      runPicks 42 4 scenarioD = some p1 ∧ scenarioD.picks = resolved ++ rest ∧
      p1.picks = rest ∧ p1.log = scenarioD.log ++ es ∧
      List.Forall₂ (Resolves 42 scenarioD.buffer scenarioD.pickContexts) resolved es ∧
      1 < resolved.length :=
  ⟨⟨by decide, by decide⟩, by decide, by decide,
    runPicks_resolves_unblocked 42 4 scenarioD ⟨by decide, by decide⟩ (by decide) 1
      (by decide) (by decide)⟩

/-- C3 (as stated, refuted): `interleavedPicker` is the state after three accepted picks, the
first and the third submitted in the same frame 3 of the same view and the second in frame 7
of another view.  The drain `runPicks(4)` resolves the first pick only: it stops at the second
pick (frame 7), so the third pick, although submitted in frame 3 like the first, stays queued
and its callback is not invoked. -/
theorem same_frame_pick_waits_behind_later_frame :
    (pick (Picker.create 4) (some (viewAtFrame 3)) (FloatVal.ofInt 400) (FloatVal.ofInt 300)
        (some 1) blankPixels).bind
      (fun r1 =>
        (pick r1.2 (some (secondViewAtFrame 7)) (FloatVal.ofInt 400) (FloatVal.ofInt 300)
            (some 2) blankPixels).bind
          (fun r2 =>
            pick r2.2 (some (viewAtFrame 3)) (FloatVal.ofInt 400) (FloatVal.ofInt 300)
              (some 3) blankPixels)) = some (true, interleavedPicker) ∧
    interleavedPicker.picks.map (fun pk => (pk.callback, pk.frame)) =
      [(1, 3), (2, 7), (3, 3)] ∧
    (runPicks 42 4 interleavedPicker).map
        (fun p => (p.picks.map (fun pk => (pk.callback, pk.frame)), p.log)) =
      some ([(2, 7), (3, 3)], [(1, CallbackEvent.onMiss)]) :=
  ⟨rfl, by decide, by decide⟩

/-- C3 (amended): for every well-formed picker state and frame number `n`, `runPicks(n)`
returns; the picks it resolves are exactly the longest front segment of the queue whose picks
all have submission frame `< n` (`takeWhile`), with one callback invocation each appended to
the log in queue order (the pick at queue position `j` gets the log entry at position `j`); the
queue afterwards is the remaining part (`dropWhile`) in unchanged order, and its front, if any,
has submission frame `>= n`.  A pick queued before a resolved pick is resolved too.  Of two
neighbouring picks with the same submission frame the second is resolved whenever the first is,
and two picks at the front of the queue with the same submission frame `< n` are both resolved,
first one first.  In general two picks with the same submission frame `< n` are both resolved
exactly when every pick queued before the later of the two has submission frame `< n`; this is
so whenever the submission frames in the queue are in non-decreasing order. -/
theorem runPicks_resolves_longest_ready_front (fuel n : Nat) (p : Picker) (hwf : p.WellFormed)
    (hf : spiralFuel p.buffer ≤ fuel) :
    ∃ (es : List (Nat × CallbackEvent)) (p1 : Picker),
      runPicks fuel n p = some p1 ∧
      p1.picks = p.picks.dropWhile (fun pk => decide (pk.frame < n)) ∧
      p1.log = p.log ++ es ∧
      List.Forall₂ (Resolves fuel p.buffer p.pickContexts)
        (p.picks.takeWhile (fun pk => decide (pk.frame < n))) es ∧
      p.picks.takeWhile (fun pk => decide (pk.frame < n)) ++ p1.picks = p.picks ∧
      (∀ pk ∈ p.picks.takeWhile (fun pk => decide (pk.frame < n)), pk.frame < n) ∧
      (∀ pk, p1.picks.head? = some pk → n ≤ pk.frame) ∧
      (∀ i (h : i + 1 < p.picks.length), p.picks[i].frame = p.picks[i + 1].frame →
        i < (p.picks.takeWhile (fun pk => decide (pk.frame < n))).length →
        i + 1 < (p.picks.takeWhile (fun pk => decide (pk.frame < n))).length) ∧
      (∀ r1 r2 rest, p.picks = r1 :: r2 :: rest → r1.frame = r2.frame → r1.frame < n →
        ∃ e1 e2 es1, es = e1 :: e2 :: es1 ∧ Resolves fuel p.buffer p.pickContexts r1 e1 ∧
          Resolves fuel p.buffer p.pickContexts r2 e2) ∧
      (∀ i j, i ≤ j → j < (p.picks.takeWhile (fun pk => decide (pk.frame < n))).length →
        i < (p.picks.takeWhile (fun pk => decide (pk.frame < n))).length) ∧
      (∀ j (hj : j < p.picks.length),
        j < (p.picks.takeWhile (fun pk => decide (pk.frame < n))).length →
        ∃ ej, es[j]? = some ej ∧ Resolves fuel p.buffer p.pickContexts p.picks[j] ej) ∧
      (∀ i j (hi : i < p.picks.length) (hj : j < p.picks.length), i < j →
        p.picks[i].frame = p.picks[j].frame → p.picks[j].frame < n →
        (j < (p.picks.takeWhile (fun pk => decide (pk.frame < n))).length ↔
          ∀ k (hk : k < p.picks.length), k < j → p.picks[k].frame < n)) ∧
      (p.picks.Pairwise (fun a b => a.frame ≤ b.frame) →
        ∀ i j (hi : i < p.picks.length) (hj : j < p.picks.length), i < j →
          p.picks[i].frame = p.picks[j].frame → p.picks[j].frame < n →
          j < (p.picks.takeWhile (fun pk => decide (pk.frame < n))).length) := by
  obtain ⟨es, e, hes⟩ := runPicks_spec fuel n p hwf hf
  have hall : ∀ pk ∈ p.picks.takeWhile (fun pk => decide (pk.frame < n)), pk.frame < n := by
    intro pk hpk
    simpa using takeWhile_all _ _ pk hpk
  have hiff : ∀ j (hj : j < p.picks.length), p.picks[j].frame < n →
      (j < (p.picks.takeWhile (fun pk => decide (pk.frame < n))).length ↔
        ∀ k (hk : k < p.picks.length), k < j → p.picks[k].frame < n) := by
    intro j hj hjn
    constructor
    · intro hjt k hk hkj
      have := (takeWhile_getElem (fun pk : Pick => decide (pk.frame < n)) p.picks k
        (by omega) hk).2
      simpa using this
    · intro hbefore
      apply takeWhile_length_gt _ _ _ hj
      intro k hk hkj
      rcases Nat.lt_or_eq_of_le hkj with hlt | heq
      · simpa using hbefore k hk hlt
      · subst heq
        simpa using hjn
  refine ⟨es, _, e, rfl, rfl, hes, List.takeWhile_append_dropWhile _ _, hall, ?_, ?_, ?_, ?_, ?_,
    ?_, ?_⟩
  · intro pk hpk
    have := List.head?_dropWhile_not (fun pk : Pick => decide (pk.frame < n)) p.picks
    simp only at hpk
    rw [hpk] at this
    simp only [Option.all_some, Bool.not_eq_true', decide_eq_false_iff_not] at this
    omega
  · intro i h hsame hi
    apply takeWhile_length_succ _ _ i h hi
    have hmem : p.picks[i] ∈ p.picks.takeWhile (fun pk => decide (pk.frame < n)) := by
      have key : ∀ (q : List Pick),
          q = p.picks.takeWhile (fun pk => decide (pk.frame < n)) ++
            p.picks.dropWhile (fun pk => decide (pk.frame < n)) →
          ∀ (hq : i < q.length), q[i] ∈ p.picks.takeWhile (fun pk => decide (pk.frame < n)) := by
        intro q hq hiq
        subst hq
        rw [List.getElem_append_left hi]
        exact List.getElem_mem _
      exact key p.picks (List.takeWhile_append_dropWhile _ _).symm (by omega)
    have := hall _ hmem
    simp only [decide_eq_true_eq]
    omega
  · intro r1 r2 rest hq h12 h1
    have h2 : r2.frame < n := by omega
    rw [hq, List.takeWhile_cons_of_pos (by simpa using h1),
      List.takeWhile_cons_of_pos (by simpa using h2)] at hes
    cases hes with
    | cons a1 hes1 =>
      cases hes1 with
      | cons a2 hes2 => exact ⟨_, _, _, rfl, a1, a2⟩
  · intro i j hij hj
    omega
  · intro j hj hjt
    obtain ⟨ej, h1, h2⟩ := forall₂_getElem hes j hjt
    rw [(takeWhile_getElem (fun pk : Pick => decide (pk.frame < n)) p.picks j hjt hj).1] at h2
    exact ⟨ej, h1, h2⟩
  · intro i j hi hj _ _ hjn
    exact hiff j hj hjn
  · intro hsorted i j hi hj _ _ hjn
    apply (hiff j hj hjn).mpr
    intro k hk hkj
    have := List.pairwise_iff_getElem.mp hsorted k j hk hj hkj
    omega

/-- C3 (amended) at Scenario D: both picks of frame 3 are resolved by `runPicks(4)`, in
submission order, with `onHit(7)` then `onHit(9)`, and the queue is left empty. -/
theorem runPicks_resolves_longest_ready_front_witness :
    scenarioD.WellFormed ∧ spiralFuel scenarioD.buffer ≤ 42 ∧
    (runPicks 42 4 scenarioD).map (fun p => (p.picks, p.log)) =
      some ([], [(1, CallbackEvent.onHit 7), (2, CallbackEvent.onHit 9)]) ∧
    ∃ (es : List (Nat × CallbackEvent)) (p1 : Picker),
      runPicks 42 4 scenarioD = some p1 ∧
      p1.picks = scenarioD.picks.dropWhile (fun pk => decide (pk.frame < 4)) ∧
      p1.log = scenarioD.log ++ es ∧
      List.Forall₂ (Resolves 42 scenarioD.buffer scenarioD.pickContexts)
        (scenarioD.picks.takeWhile (fun pk => decide (pk.frame < 4))) es ∧
      scenarioD.picks.takeWhile (fun pk => decide (pk.frame < 4)) ++ p1.picks = scenarioD.picks ∧
      (∀ pk ∈ scenarioD.picks.takeWhile (fun pk => decide (pk.frame < 4)), pk.frame < 4) ∧
      (∀ pk, p1.picks.head? = some pk → 4 ≤ pk.frame) ∧
      (∀ i (h : i + 1 < scenarioD.picks.length),
        scenarioD.picks[i].frame = scenarioD.picks[i + 1].frame →
        i < (scenarioD.picks.takeWhile (fun pk => decide (pk.frame < 4))).length →
        i + 1 < (scenarioD.picks.takeWhile (fun pk => decide (pk.frame < 4))).length) ∧
      (∀ r1 r2 rest, scenarioD.picks = r1 :: r2 :: rest → r1.frame = r2.frame → r1.frame < 4 →
        ∃ e1 e2 es1, es = e1 :: e2 :: es1 ∧
          Resolves 42 scenarioD.buffer scenarioD.pickContexts r1 e1 ∧
          Resolves 42 scenarioD.buffer scenarioD.pickContexts r2 e2) ∧
      (∀ i j, i ≤ j → j < (scenarioD.picks.takeWhile (fun pk => decide (pk.frame < 4))).length →
        i < (scenarioD.picks.takeWhile (fun pk => decide (pk.frame < 4))).length) ∧
      (∀ j (hj : j < scenarioD.picks.length),
        j < (scenarioD.picks.takeWhile (fun pk => decide (pk.frame < 4))).length →
        ∃ ej, es[j]? = some ej ∧
          Resolves 42 scenarioD.buffer scenarioD.pickContexts scenarioD.picks[j] ej) ∧
      (∀ i j (hi : i < scenarioD.picks.length) (hj : j < scenarioD.picks.length), i < j →
        scenarioD.picks[i].frame = scenarioD.picks[j].frame → scenarioD.picks[j].frame < 4 →
        (j < (scenarioD.picks.takeWhile (fun pk => decide (pk.frame < 4))).length ↔
          ∀ k (hk : k < scenarioD.picks.length), k < j → scenarioD.picks[k].frame < 4)) ∧
      (scenarioD.picks.Pairwise (fun a b => a.frame ≤ b.frame) →
        ∀ i j (hi : i < scenarioD.picks.length) (hj : j < scenarioD.picks.length), i < j →
          scenarioD.picks[i].frame = scenarioD.picks[j].frame → scenarioD.picks[j].frame < 4 →
          j < (scenarioD.picks.takeWhile (fun pk => decide (pk.frame < 4))).length) :=
  ⟨⟨by decide, by decide⟩, by decide, by decide,
    runPicks_resolves_longest_ready_front 42 4 scenarioD ⟨by decide, by decide⟩ (by decide)⟩

/-! ## Claims about the spiral search and the decoding -/

theorem firstHit_ne_onHit_zero (read : Int → Int → Vec4f) (l : List (Int × Int)) :
    firstHit read l ≠ CallbackEvent.onHit 0 := by
  induction l with
  | nil => simp [firstHit]
  | cons q l ih =>
    unfold firstHit
    split_ifs with h
    · intro hc
      simp only [CallbackEvent.onHit.injEq] at hc
      omega
    · exact ih

theorem firstHit_eq_onMiss_iff (read : Int → Int → Vec4f) (l : List (Int × Int)) :
    firstHit read l = CallbackEvent.onMiss ↔ ∀ q ∈ l, decodeId (read q.1 q.2) = 0 := by
  induction l with
  | nil => simp [firstHit]
  | cons q l ih =>
    unfold firstHit
    split_ifs with h
    · simp only [List.mem_cons, forall_eq_or_imp, false_iff, not_and]
      intro h0; omega
    · rw [ih]
      simp only [List.mem_cons, forall_eq_or_imp, iff_and_self]
      intro _; omega

theorem firstHit_eq_onHit_iff (read : Int → Int → Vec4f) (l : List (Int × Int)) (k : Nat) :
    firstHit read l = CallbackEvent.onHit k ↔
      k ≠ 0 ∧ ∃ l1 q l2, l = l1 ++ q :: l2 ∧ (∀ x ∈ l1, decodeId (read x.1 x.2) = 0) ∧
        decodeId (read q.1 q.2) = k := by
  induction l with
  | nil =>
    simp [firstHit]
  | cons a l ih =>
    unfold firstHit
    split_ifs with h
    · constructor
      · intro hk
        simp only [CallbackEvent.onHit.injEq] at hk
        exact ⟨by omega, [], a, l, rfl, by simp, hk⟩
      · rintro ⟨_, l1, q, l2, hl, hz, hq⟩
        cases l1 with
        | nil =>
          simp only [List.nil_append, List.cons.injEq] at hl
          rw [hl.1, hq]
        | cons b l1 =>
          simp only [List.cons_append, List.cons.injEq] at hl
          have := hz b (List.mem_cons_self _ _)
          rw [← hl.1] at this
          omega
    · rw [ih]
      constructor
      · rintro ⟨hk, l1, q, l2, hl, hz, hq⟩
        refine ⟨hk, a :: l1, q, l2, by rw [hl]; rfl, ?_, hq⟩
        intro x hx
        rcases List.mem_cons.mp hx with rfl | hx
        · omega
        · exact hz x hx
      · rintro ⟨hk, l1, q, l2, hl, hz, hq⟩
        cases l1 with
        | nil =>
          simp only [List.nil_append, List.cons.injEq] at hl
          rw [hl.1] at h
          omega
        | cons b l1 =>
          simp only [List.cons_append, List.cons.injEq] at hl
          exact ⟨hk, l1, q, l2, hl.2, fun x hx => hz x (List.mem_cons_of_mem _ hx), hq⟩

theorem checkForPickResult_eq {fuel : Nat} {p : Picker} {pk : Pick} {ev : CallbackEvent}
    (h : pickOutcome fuel p.buffer p.pickContexts pk = some ev) :
    checkForPickResult fuel p pk =
      some { p with
        pickContexts := disableContext p.pickContexts pk.context
        log := p.log ++ [(pk.callback, ev)] } := by
  unfold checkForPickResult
  rw [h]

/-- C4 (code evaluated at the failing input): with the default margin `_buffer = 2`, a 5 x 5
buffer and the centre (2,2), the iterator yields 20 pixels and stops; none of the five
in-bounds cells of the row `t = 0` (Chebyshev distance 2 from the centre) is among them. -/
theorem spiral_omits_last_row :
    SpiralIterator.visited 42 42 (SpiralIterator.init 5 5 (max 2 1) half half) =
      some [(2,2), (3,2), (3,3), (2,3), (1,3), (1,2), (1,1), (2,1), (3,1), (4,1), (4,2), (4,3),
        (4,4), (3,4), (2,4), (1,4), (0,4), (0,3), (0,2), (0,1)] ∧
    InBounds 5 5 (2,0) ∧ chebyshev (2,0) (2,2) = 2 ∧
    ((2,0) : Int × Int) ∉ [(2,2), (3,2), (3,3), (2,3), (1,3), (1,2), (1,1), (2,1), (3,1), (4,1),
        (4,2), (4,3), (4,4), (3,4), (2,4), (1,4), (0,4), (0,3), (0,2), (0,1)] := by
  decide

/-- C5 (code evaluated at the failing input): the pick of `pickAboveObject` is accepted and
its centre (2,2) is in bounds; the only pixel of the buffer that decodes to a non-zero
identifier is (2,0), which encodes 42 and lies at Chebyshev distance 2 from the centre, within
the margin 2; yet resolving the pick invokes `onMiss()`. -/
theorem object_within_margin_missed :
    coordsRejected half half = false ∧
    InBounds objectBelow.s objectBelow.t (centerOf objectBelow half half) ∧
    decodeId (objectBelow.read 2 0) = 42 ∧
    (∀ s t, decodeId (objectBelow.read s t) ≠ 0 → (s, t) = (2, 0)) ∧
    chebyshev (2,0) (centerOf objectBelow half half) ≤ maxRingOf 2 ∧
    (checkForPickResult 42 pickAboveObject
        { context := 0, u := half, v := half, callback := 1, frame := 0 }).map
      (fun p => p.log) = some [(1, CallbackEvent.onMiss)] := by
  refine ⟨by decide, by decide, by decide, ?_, by decide, by decide⟩
  intro s t h
  by_cases hs : s = 2 ∧ t = 0
  · rw [hs.1, hs.2]
  · exfalso
    apply h
    simp only [objectBelow, Image.ofIds, hs, if_false]
    decide

/-- C6: for every picker state (margin an `int`), pick and pick context, with enough fuel the
spiral returns its list of visited pixels and every one of them lies within Chebyshev distance
`maxRing = max(_buffer, 1)` of the centre pixel; and if every pixel that decodes to a non-zero
identifier lies farther than `maxRing` from the centre, `checkForPickResult` invokes
`onMiss()`. -/
theorem miss_when_objects_beyond_margin (fuel : Nat) (p : Picker) (pk : Pick)
    (ctx : PickContext) (hb : p.buffer < 2147483648)
    (hc : p.pickContexts[pk.context]? = some ctx) (hf : spiralFuel p.buffer ≤ fuel)
    (hfar : ∀ s t, decodeId (ctx.image.read s t) ≠ 0 →
      maxRingOf p.buffer < chebyshev (s, t) (centerOf ctx.image pk.u pk.v)) :
    ((maxRingOf p.buffer : Nat) : Int) = max p.buffer 1 ∧
    (∃ l, SpiralIterator.visited fuel fuel
          (SpiralIterator.init ctx.image.s ctx.image.t (max p.buffer 1) pk.u pk.v) = some l ∧
        ∀ q ∈ l, chebyshev q (centerOf ctx.image pk.u pk.v) ≤ maxRingOf p.buffer) ∧
    checkForPickResult fuel p pk =
      some { p with
        pickContexts := disableContext p.pickContexts pk.context
        log := p.log ++ [(pk.callback, CallbackEvent.onMiss)] } := by
  obtain ⟨l, hv, ho, hw, _⟩ := pickOutcome_spec fuel p.buffer p.pickContexts pk ctx hb hc hf
  refine ⟨(maxRingOf_bounds hb).2.2, ⟨l, hv, hw⟩, ?_⟩
  apply checkForPickResult_eq
  rw [ho]
  congr 1
  rw [firstHit_eq_onMiss_iff]
  intro q hq
  by_contra hne
  have h1 : maxRingOf p.buffer < chebyshev q (centerOf ctx.image pk.u pk.v) :=
    hfar q.1 q.2 hne
  have h2 := hw q hq
  omega

/-- C6 at `pickFarFromObject`: the only object pixel (8,8) is at distance 4 from the centre
(4,4), beyond the margin 2. -/
theorem miss_when_objects_beyond_margin_witness :
    pickFarFromObject.buffer < 2147483648 ∧
    spiralFuel pickFarFromObject.buffer ≤ 42 ∧
    (∀ s t, decodeId (objectFarAway.read s t) ≠ 0 →
      maxRingOf pickFarFromObject.buffer < chebyshev (s, t) (centerOf objectFarAway half half)) ∧
    (((maxRingOf pickFarFromObject.buffer : Nat) : Int) = max pickFarFromObject.buffer 1 ∧
    (∃ l, SpiralIterator.visited 42 42
          (SpiralIterator.init objectFarAway.s objectFarAway.t (max pickFarFromObject.buffer 1)
            half half) = some l ∧
        ∀ q ∈ l, chebyshev q (centerOf objectFarAway half half) ≤
          maxRingOf pickFarFromObject.buffer) ∧
    checkForPickResult 42 pickFarFromObject
        { context := 0, u := half, v := half, callback := 1, frame := 0 } =
      some { pickFarFromObject with
        pickContexts := disableContext pickFarFromObject.pickContexts 0
        log := pickFarFromObject.log ++ [(1, CallbackEvent.onMiss)] }) :=
  have hfar : ∀ s t, decodeId (objectFarAway.read s t) ≠ 0 →
      maxRingOf pickFarFromObject.buffer <
        chebyshev (s, t) (centerOf objectFarAway half half) := by
    intro s t h
    by_cases hs : s = 8 ∧ t = 8
    · obtain ⟨rfl, rfl⟩ := hs
      decide
    · exfalso
      apply h
      simp only [objectFarAway, Image.ofIds, hs, if_false]
      decide
  ⟨by decide, by decide, hfar,
    miss_when_objects_beyond_margin 42 pickFarFromObject
      { context := 0, u := half, v := half, callback := 1, frame := 0 }
      { view := 0, image := objectFarAway, nodeMask := 4294967295 }
      (by decide) rfl (by decide) hfar⟩

/-- C7 (code evaluated at the failing input): the coordinates `u = 1`, `v = 1` pass the
bounds check of `pick`; for a 4 x 4 buffer the centre is `(4, 4)`, the first call of `next()`
yields it without a bounds test, and it is the first pixel read although neither `s = 4` nor
`t = 4` is `< 4`. -/
theorem center_read_out_of_bounds :
    coordsRejected one one = false ∧
    (SpiralIterator.next 42 (SpiralIterator.init 4 4 (max 2 1) one one)).map
      (fun r => (r.1, r.2.s, r.2.t)) = some (true, 4, 4) ∧
    (SpiralIterator.visited 42 42 (SpiralIterator.init 4 4 (max 2 1) one one)).map
      (fun l => l.head?) = some (some (4, 4)) ∧
    ¬ InBounds 4 4 (4, 4) := by
  decide

theorem and_shiftRight_distrib (a b i : Nat) : (a &&& b) >>> i = (a >>> i) &&& (b >>> i) := by
  apply Nat.eq_of_testBit_eq
  intro j
  simp [Nat.testBit_shiftRight, Nat.testBit_and]

theorem toUInt_ofByte_mul (b : Nat) (hb : b < 256) :
    ((FloatVal.ofByte b).mulInt 255).toUInt = b := by
  unfold FloatVal.toUInt FloatVal.toInt FloatVal.mulInt FloatVal.ofByte toUnsigned
  have : Int.tdiv ((b : Int) * 255) ((255 : Nat) : Int) = b := by simp
  simp only [this]
  omega

theorem encodeObjectId_bytes (oid : Nat) :
    encodeObjectId oid =
      { r := FloatVal.ofByte (oid / 16777216 % 256)
        g := FloatVal.ofByte (oid / 65536 % 256)
        b := FloatVal.ofByte (oid / 256 % 256)
        a := FloatVal.ofByte (oid % 256) } := by
  unfold encodeObjectId
  have h24 : (0xff000000 : Nat) >>> 24 = 2 ^ 8 - 1 := by decide
  have h16 : (0x00ff0000 : Nat) >>> 16 = 2 ^ 8 - 1 := by decide
  have h8 : (0x0000ff00 : Nat) >>> 8 = 2 ^ 8 - 1 := by decide
  have h0 : (0x000000ff : Nat) >>> 0 = 2 ^ 8 - 1 := by decide
  rw [and_shiftRight_distrib, and_shiftRight_distrib, and_shiftRight_distrib,
    and_shiftRight_distrib, h24, h16, h8, h0]
  simp only [Nat.and_pow_two_sub_one_eq_mod, Nat.shiftRight_eq_div_pow]
  norm_num

set_option maxRecDepth 100000 in
theorem toUInt_roundBinary32_ofByte_mul :
    ∀ b, b < 256 → ((FloatVal.ofByte b).roundBinary32.mulInt 255).toUInt = b := by
  decide

/-- C8: for every 32-bit identifier, the vertex shader packs it big-endian into the four
channels `byte/255` (`r` = bits 31..24, ..., `a` = bits 7..0), and decoding those channels as
`checkForPickResult` does (`byte = (unsigned)(channel*255.0)`, shifts by 24, 16, 8, 0, added)
gives the identifier back; the same holds when each channel value `byte/255` is first rounded
to a binary32 float. -/
theorem decodeId_encodeObjectId (oid : Nat) (h : oid < 4294967296) :
    encodeObjectId oid =
      { r := FloatVal.ofByte (oid / 16777216 % 256)
        g := FloatVal.ofByte (oid / 65536 % 256)
        b := FloatVal.ofByte (oid / 256 % 256)
        a := FloatVal.ofByte (oid % 256) } ∧
    decodeId (encodeObjectId oid) = oid ∧
    decodeId (encodeObjectId oid).roundBinary32 = oid := by
  refine ⟨encodeObjectId_bytes oid, ?_, ?_⟩
  · rw [encodeObjectId_bytes]
    unfold decodeId
    simp only
    rw [toUInt_ofByte_mul _ (Nat.mod_lt _ (by decide)),
      toUInt_ofByte_mul _ (Nat.mod_lt _ (by decide)),
      toUInt_ofByte_mul _ (Nat.mod_lt _ (by decide)),
      toUInt_ofByte_mul _ (Nat.mod_lt _ (by decide))]
    simp only [Nat.shiftLeft_eq]
    omega
  · rw [encodeObjectId_bytes]
    unfold decodeId Vec4f.roundBinary32
    simp only
    rw [toUInt_roundBinary32_ofByte_mul _ (Nat.mod_lt _ (by decide)),
      toUInt_roundBinary32_ofByte_mul _ (Nat.mod_lt _ (by decide)),
      toUInt_roundBinary32_ofByte_mul _ (Nat.mod_lt _ (by decide)),
      toUInt_roundBinary32_ofByte_mul _ (Nat.mod_lt _ (by decide))]
    simp only [Nat.shiftLeft_eq]
    omega

/-- C8 at the identifier `0x12345678`, whose channels are `{0x12, 0x34, 0x56, 0x78}/255`. -/
theorem decodeId_encodeObjectId_witness :
    (0x12345678 : Nat) < 4294967296 ∧
    encodeObjectId 0x12345678 =
      { r := FloatVal.ofByte 0x12, g := FloatVal.ofByte 0x34, b := FloatVal.ofByte 0x56,
        a := FloatVal.ofByte 0x78 } ∧
    decodeId (Vec4f.mk (FloatVal.ofByte 0x12) (FloatVal.ofByte 0x34) (FloatVal.ofByte 0x56)
      (FloatVal.ofByte 0x78)) = 0x12345678 ∧
    (encodeObjectId 0x12345678 =
      { r := FloatVal.ofByte (0x12345678 / 16777216 % 256)
        g := FloatVal.ofByte (0x12345678 / 65536 % 256)
        b := FloatVal.ofByte (0x12345678 / 256 % 256)
        a := FloatVal.ofByte (0x12345678 % 256) } ∧
    decodeId (encodeObjectId 0x12345678) = 0x12345678 ∧
    decodeId (encodeObjectId 0x12345678).roundBinary32 = 0x12345678) :=
  ⟨by decide, by decide, by decide, decodeId_encodeObjectId 0x12345678 (by decide)⟩

/-- C9: for every picker state (margin an `int`), pick and pick context, with enough fuel
`checkForPickResult` returns after exactly one callback invocation `ev`; `ev` is never
`onHit(0)`; `ev` is `onMiss()` exactly when every pixel visited by the spiral decodes to
identifier 0; in particular the pick resolves as `onMiss()` when every value the reader can
return decodes to 0, and also when the centre is in bounds and every in-bounds pixel decodes
to 0. -/
theorem identifier_zero_never_hits (fuel : Nat) (p : Picker) (pk : Pick) (ctx : PickContext)
    (hb : p.buffer < 2147483648) (hc : p.pickContexts[pk.context]? = some ctx)
    (hf : spiralFuel p.buffer ≤ fuel) :
    ∃ (l : List (Int × Int)) (ev : CallbackEvent),
      SpiralIterator.visited fuel fuel
        (SpiralIterator.init ctx.image.s ctx.image.t (max p.buffer 1) pk.u pk.v) = some l ∧
      checkForPickResult fuel p pk =
        some { p with
          pickContexts := disableContext p.pickContexts pk.context
          log := p.log ++ [(pk.callback, ev)] } ∧
      ev ≠ CallbackEvent.onHit 0 ∧
      (ev = CallbackEvent.onMiss ↔ ∀ q ∈ l, decodeId (ctx.image.read q.1 q.2) = 0) ∧
      ((∀ s t, decodeId (ctx.image.read s t) = 0) → ev = CallbackEvent.onMiss) ∧
      (InBounds ctx.image.s ctx.image.t (centerOf ctx.image pk.u pk.v) →
        (∀ s t, InBounds ctx.image.s ctx.image.t (s, t) → decodeId (ctx.image.read s t) = 0) →
        ev = CallbackEvent.onMiss) := by
  obtain ⟨l, hv, ho, _, l1, hl, hin⟩ :=
    pickOutcome_spec fuel p.buffer p.pickContexts pk ctx hb hc hf
  refine ⟨l, firstHit ctx.image.read l, hv, checkForPickResult_eq ho,
    firstHit_ne_onHit_zero _ _, firstHit_eq_onMiss_iff _ _, ?_, ?_⟩
  · intro hz
    rw [firstHit_eq_onMiss_iff]
    intro q _
    exact hz q.1 q.2
  · intro hcen hz
    rw [firstHit_eq_onMiss_iff]
    intro q hq
    rw [hl] at hq
    rcases List.mem_cons.mp hq with rfl | hq
    · exact hz _ _ hcen
    · exact hz _ _ (hin q hq)

/-- C9 at the front pick of `blockedPicker`, whose buffer is all zero. -/
theorem identifier_zero_never_hits_witness :
    blockedPicker.buffer < 2147483648 ∧ spiralFuel blockedPicker.buffer ≤ 42 ∧
    (checkForPickResult 42 blockedPicker
        { context := 0, u := half, v := half, callback := 10, frame := 5 }).map
      (fun p => p.log) = some [(10, CallbackEvent.onMiss)] ∧
    ∃ (l : List (Int × Int)) (ev : CallbackEvent),
      SpiralIterator.visited 42 42
        (SpiralIterator.init (Image.ofIds 4 4 (fun _ _ => 0)).s (Image.ofIds 4 4 (fun _ _ => 0)).t
          (max blockedPicker.buffer 1) half half) = some l ∧
      checkForPickResult 42 blockedPicker
          { context := 0, u := half, v := half, callback := 10, frame := 5 } =
        some { blockedPicker with
          pickContexts := disableContext blockedPicker.pickContexts 0
          log := blockedPicker.log ++ [(10, ev)] } ∧
      ev ≠ CallbackEvent.onHit 0 ∧
      (ev = CallbackEvent.onMiss ↔
        ∀ q ∈ l, decodeId ((Image.ofIds 4 4 (fun _ _ => 0)).read q.1 q.2) = 0) ∧
      ((∀ s t, decodeId ((Image.ofIds 4 4 (fun _ _ => 0)).read s t) = 0) →
        ev = CallbackEvent.onMiss) ∧
      (InBounds (Image.ofIds 4 4 (fun _ _ => 0)).s (Image.ofIds 4 4 (fun _ _ => 0)).t
          (centerOf (Image.ofIds 4 4 (fun _ _ => 0)) half half) →
        (∀ s t, InBounds (Image.ofIds 4 4 (fun _ _ => 0)).s (Image.ofIds 4 4 (fun _ _ => 0)).t
            (s, t) → decodeId ((Image.ofIds 4 4 (fun _ _ => 0)).read s t) = 0) →
        ev = CallbackEvent.onMiss) :=
  ⟨by decide, by decide, by decide,
    identifier_zero_never_hits 42 blockedPicker
      { context := 0, u := half, v := half, callback := 10, frame := 5 }
      { view := 0, image := Image.ofIds 4 4 (fun _ _ => 0), nodeMask := 4294967295 }
      (by decide) rfl (by decide)⟩

/-- C10 (as stated, refuted): pixel (2,2) of `sentinelImage` has the channel bytes (0,0,0,1),
it decodes to identifier 1, and resolving the pick at the centre (2,2) invokes `onHit(1)`. -/
theorem sentinel_bytes_reported_as_hit_one :
    sentinelImage.read 2 2 =
      Vec4f.mk (FloatVal.ofByte 0) (FloatVal.ofByte 0) (FloatVal.ofByte 0) (FloatVal.ofByte 1) ∧
    decodeId (sentinelImage.read 2 2) = 1 ∧
    (checkForPickResult 42 pickOnSentinel
        { context := 0, u := half, v := half, callback := 1, frame := 0 }).map
      (fun p => p.log) = some [(1, CallbackEvent.onHit 1)] := by
  decide

/-- C10 (amended): `checkForPickResult` gives identifier 1 no treatment of its own.  For every
picker state (margin an `int`), pick and pick context, with enough fuel it returns after one
callback invocation `ev`, and `ev` is `onHit(1)` exactly when the first visited pixel that
decodes to a non-zero identifier decodes to 1; hence it never invokes `onHit(1)` when no value
the reader returns decodes to 1. -/
theorem onHit_one_iff_first_nonzero_decodes_to_one (fuel : Nat) (p : Picker) (pk : Pick)
    (ctx : PickContext) (hb : p.buffer < 2147483648)
    (hc : p.pickContexts[pk.context]? = some ctx) (hf : spiralFuel p.buffer ≤ fuel) :
    ∃ (l : List (Int × Int)) (ev : CallbackEvent),
      SpiralIterator.visited fuel fuel
        (SpiralIterator.init ctx.image.s ctx.image.t (max p.buffer 1) pk.u pk.v) = some l ∧
      checkForPickResult fuel p pk =
        some { p with
          pickContexts := disableContext p.pickContexts pk.context
          log := p.log ++ [(pk.callback, ev)] } ∧
      (ev = CallbackEvent.onHit 1 ↔
        ∃ l1 q l2, l = l1 ++ q :: l2 ∧ (∀ x ∈ l1, decodeId (ctx.image.read x.1 x.2) = 0) ∧
          decodeId (ctx.image.read q.1 q.2) = 1) ∧
      ((∀ s t, decodeId (ctx.image.read s t) ≠ 1) → ev ≠ CallbackEvent.onHit 1) := by
  obtain ⟨l, hv, ho, _, _⟩ := pickOutcome_spec fuel p.buffer p.pickContexts pk ctx hb hc hf
  have hiff := firstHit_eq_onHit_iff ctx.image.read l 1
  refine ⟨l, firstHit ctx.image.read l, hv, checkForPickResult_eq ho, ?_, ?_⟩
  · rw [hiff]
    constructor
    · rintro ⟨_, h⟩; exact h
    · intro h; exact ⟨one_ne_zero, h⟩
  · intro hne hev
    obtain ⟨_, _, q, _, _, _, hq⟩ := hiff.mp hev
    exact hne q.1 q.2 hq

/-- C10 (amended) at `pickOnSentinel`. -/
theorem onHit_one_iff_first_nonzero_decodes_to_one_witness :
    pickOnSentinel.buffer < 2147483648 ∧ spiralFuel pickOnSentinel.buffer ≤ 42 ∧
    ∃ (l : List (Int × Int)) (ev : CallbackEvent),
      SpiralIterator.visited 42 42
        (SpiralIterator.init sentinelImage.s sentinelImage.t (max pickOnSentinel.buffer 1)
          half half) = some l ∧
      checkForPickResult 42 pickOnSentinel
          { context := 0, u := half, v := half, callback := 1, frame := 0 } =
        some { pickOnSentinel with
          pickContexts := disableContext pickOnSentinel.pickContexts 0
          log := pickOnSentinel.log ++ [(1, ev)] } ∧
      (ev = CallbackEvent.onHit 1 ↔
        ∃ l1 q l2, l = l1 ++ q :: l2 ∧ (∀ x ∈ l1, decodeId (sentinelImage.read x.1 x.2) = 0) ∧
          decodeId (sentinelImage.read q.1 q.2) = 1) ∧
      ((∀ s t, decodeId (sentinelImage.read s t) ≠ 1) → ev ≠ CallbackEvent.onHit 1) :=
  ⟨by decide, by decide,
    onHit_one_iff_first_nonzero_decodes_to_one 42 pickOnSentinel
      { context := 0, u := half, v := half, callback := 1, frame := 0 }
      { view := 0, image := sentinelImage, nodeMask := 4294967295 }
      (by decide) rfl (by decide)⟩

/-! ## Claims about callbacks, repeated drains and the first hit -/

theorem resolves_eq_map (fuel : Nat) (buffer : Int) (ctxs : List PickContext) :
    ∀ (l : List Pick) (es : List (Nat × CallbackEvent)),
      List.Forall₂ (Resolves fuel buffer ctxs) l es → es = l.map (logEntry fuel buffer ctxs) := by
  intro l
  induction l with
  | nil =>
    intro es h
    cases h
    rfl
  | cons pk l ih =>
    intro es h
    cases h with
    | cons hab hrest =>
      rw [List.map_cons, ← ih _ hrest]
      congr 1
      unfold logEntry
      rw [hab.2]
      exact Prod.ext hab.1 rfl

theorem runPicks_eq_drained (fuel n : Nat) (p : Picker) (hwf : p.WellFormed)
    (hf : spiralFuel p.buffer ≤ fuel) : runPicks fuel n p = some (drained fuel n p) := by
  obtain ⟨es, e, hes⟩ := runPicks_spec fuel n p hwf hf
  rw [e, resolves_eq_map _ _ _ _ _ hes]
  rfl

theorem length_disableContext (ctxs : List PickContext) (i : Nat) :
    (disableContext ctxs i).length = ctxs.length := by
  unfold disableContext
  cases ctxs[i]? with
  | none => rfl
  | some c => simp

theorem length_disableAll (resolved : List Pick) :
    ∀ ctxs : List PickContext, (disableAll ctxs resolved).length = ctxs.length := by
  induction resolved with
  | nil => intro ctxs; rfl
  | cons pk l ih =>
    intro ctxs
    unfold disableAll at ih ⊢
    rw [List.foldl_cons, ih, length_disableContext]

theorem pickOutcome_disableAll (fuel : Nat) (buffer : Int) (pk : Pick) (resolved : List Pick) :
    ∀ ctxs : List PickContext,
      pickOutcome fuel buffer (disableAll ctxs resolved) pk = pickOutcome fuel buffer ctxs pk := by
  induction resolved with
  | nil => intro ctxs; rfl
  | cons a l ih =>
    intro ctxs
    unfold disableAll at ih ⊢
    rw [List.foldl_cons, ih, pickOutcome_disableContext]

theorem drained_wellFormed (fuel n : Nat) (p : Picker) (hwf : p.WellFormed) :
    (drained fuel n p).WellFormed := by
  refine ⟨hwf.1, ?_⟩
  intro pk hpk
  have hmem : pk ∈ p.picks := (List.dropWhile_sublist _).subset hpk
  have := hwf.2 pk hmem
  simp only [drained, length_disableAll]
  exact this

theorem takeWhile_takeWhile_dropWhile {m n : Nat} (hmn : m ≤ n) :
    ∀ q : List Pick,
      q.takeWhile (fun pk => decide (pk.frame < m)) ++
          (q.dropWhile (fun pk => decide (pk.frame < m))).takeWhile
            (fun pk => decide (pk.frame < n)) =
        q.takeWhile (fun pk => decide (pk.frame < n)) ∧
      (q.dropWhile (fun pk => decide (pk.frame < m))).dropWhile
          (fun pk => decide (pk.frame < n)) =
        q.dropWhile (fun pk => decide (pk.frame < n)) := by
  intro q
  induction q with
  | nil => simp
  | cons a q ih =>
    by_cases ha : a.frame < m
    · have hn : a.frame < n := by omega
      rw [List.takeWhile_cons_of_pos (by simpa using ha),
        List.dropWhile_cons_of_pos (by simpa using ha),
        List.takeWhile_cons_of_pos (by simpa using hn),
        List.dropWhile_cons_of_pos (by simpa using hn)]
      exact ⟨by rw [List.cons_append, ih.1], ih.2⟩
    · rw [List.takeWhile_cons_of_neg (by simpa using ha),
        List.dropWhile_cons_of_neg (by simpa using ha)]
      exact ⟨rfl, rfl⟩

theorem drained_drained (fuel m n : Nat) (p : Picker) (hmn : m ≤ n) :
    drained fuel n (drained fuel m p) = drained fuel n p := by
  obtain ⟨h1, h2⟩ := takeWhile_takeWhile_dropWhile hmn p.picks
  have hlog : ∀ l : List Pick,
      l.map (logEntry fuel p.buffer
          (disableAll p.pickContexts (p.picks.takeWhile (fun pk => decide (pk.frame < m))))) =
        l.map (logEntry fuel p.buffer p.pickContexts) := by
    intro l
    apply List.map_congr_left
    intro pk _
    unfold logEntry
    rw [pickOutcome_disableAll]
  unfold drained
  simp only [hlog, h2, List.append_assoc, ← List.map_append, h1]
  congr 1
  unfold disableAll
  rw [← List.foldl_append, h1]

/-- C11: for every well-formed picker state, with enough fuel, resolving a pick whose context
exists returns after appending exactly one callback invocation to the log, made on the
callback of that pick and being either `onHit(id)` or `onMiss()`; and `runPicks(n)` appends
exactly as many callback invocations as it removes picks from the queue. -/
theorem callback_invoked_exactly_once (fuel : Nat) (p : Picker) (hwf : p.WellFormed)
    (hf : spiralFuel p.buffer ≤ fuel) :
    (∀ (pk : Pick) (ctx : PickContext), p.pickContexts[pk.context]? = some ctx →
      ∃ (ev : CallbackEvent) (p1 : Picker),
        checkForPickResult fuel p pk = some p1 ∧ p1.log = p.log ++ [(pk.callback, ev)] ∧
        p1.log.length = p.log.length + 1 ∧
        (ev = CallbackEvent.onMiss ∨ ∃ id, ev = CallbackEvent.onHit id)) ∧
    (∀ n : Nat, ∃ (p1 : Picker) (es : List (Nat × CallbackEvent)),
      runPicks fuel n p = some p1 ∧ p1.log = p.log ++ es ∧
      es.length + p1.picks.length = p.picks.length) := by
  constructor
  · intro pk ctx hc
    obtain ⟨l, _, ho, _⟩ := pickOutcome_spec fuel p.buffer p.pickContexts pk ctx hwf.1 hc hf
    refine ⟨firstHit ctx.image.read l, _, checkForPickResult_eq ho, rfl, by simp, ?_⟩
    cases firstHit ctx.image.read l with
    | onHit id => exact Or.inr ⟨id, rfl⟩
    | onMiss => exact Or.inl rfl
  · intro n
    obtain ⟨es, e, hes⟩ := runPicks_spec fuel n p hwf hf
    refine ⟨_, es, e, rfl, ?_⟩
    have h1 := hes.length_eq
    have h2 := congrArg List.length
      (List.takeWhile_append_dropWhile (fun pk : Pick => decide (pk.frame < n)) p.picks)
    rw [List.length_append] at h2
    show es.length + (p.picks.dropWhile (fun pk => decide (pk.frame < n))).length =
      p.picks.length
    omega

/-- C11 at Scenario D. -/
theorem callback_invoked_exactly_once_witness :
    scenarioD.WellFormed ∧ spiralFuel scenarioD.buffer ≤ 42 ∧
    ((∀ (pk : Pick) (ctx : PickContext), scenarioD.pickContexts[pk.context]? = some ctx →
      ∃ (ev : CallbackEvent) (p1 : Picker),
        checkForPickResult 42 scenarioD pk = some p1 ∧
        p1.log = scenarioD.log ++ [(pk.callback, ev)] ∧
        p1.log.length = scenarioD.log.length + 1 ∧
        (ev = CallbackEvent.onMiss ∨ ∃ id, ev = CallbackEvent.onHit id)) ∧
    (∀ n : Nat, ∃ (p1 : Picker) (es : List (Nat × CallbackEvent)),
      runPicks 42 n scenarioD = some p1 ∧ p1.log = scenarioD.log ++ es ∧
      es.length + p1.picks.length = scenarioD.picks.length)) :=
  ⟨⟨by decide, by decide⟩, by decide,
    callback_invoked_exactly_once 42 scenarioD ⟨by decide, by decide⟩ (by decide)⟩

/-- C20: for every well-formed picker state and frame numbers `m <= n`, `runPicks(m)`
followed by `runPicks(n)` returns and ends in the same state (same queue, same log of callback
invocations in the same order, same contexts) as `runPicks(n)` alone; and a second
`runPicks(n)` right after the first leaves the state as it is. -/
theorem runPicks_twice (fuel m n : Nat) (p : Picker) (hwf : p.WellFormed)
    (hf : spiralFuel p.buffer ≤ fuel) (hmn : m ≤ n) :
    ∃ (p1 p2 : Picker),
      runPicks fuel m p = some p1 ∧ runPicks fuel n p1 = some p2 ∧
      runPicks fuel n p = some p2 ∧ runPicks fuel n p2 = some p2 := by
  have hwf1 := drained_wellFormed fuel m p hwf
  have hwf2 := drained_wellFormed fuel n p hwf
  refine ⟨drained fuel m p, drained fuel n p, runPicks_eq_drained fuel m p hwf hf, ?_,
    runPicks_eq_drained fuel n p hwf hf, ?_⟩
  · rw [runPicks_eq_drained fuel n _ hwf1 hf, drained_drained fuel m n p hmn]
  · rw [runPicks_eq_drained fuel n _ hwf2 hf, drained_drained fuel n n p (Nat.le_refl n)]

/-- C20 at Scenario D with `m = 3` (nothing is ready) and `n = 4` (both picks are). -/
theorem runPicks_twice_witness :
    scenarioD.WellFormed ∧ spiralFuel scenarioD.buffer ≤ 42 ∧ 3 ≤ 4 ∧
    ∃ (p1 p2 : Picker),
      runPicks 42 3 scenarioD = some p1 ∧ runPicks 42 4 p1 = some p2 ∧
      runPicks 42 4 scenarioD = some p2 ∧ runPicks 42 4 p2 = some p2 :=
  ⟨⟨by decide, by decide⟩, by decide, by decide,
    runPicks_twice 42 3 4 scenarioD ⟨by decide, by decide⟩ (by decide) (by decide)⟩

/-- C16: for every picker state (margin an `int`), pick and pick context, with enough fuel the
spiral returns its list of visited pixels, which starts with the centre pixel; if `q` is the
first pixel of that list that decodes to a non-zero identifier `k`, `checkForPickResult`
invokes `onHit(k)`, and so does the decoding of any other buffer of the same size that agrees
with this one on `q` and on the pixels visited before `q` (later pixels do not matter); in
particular a centre pixel that decodes to `k` non-zero gives `onHit(k)`. -/
theorem first_nonzero_pixel_is_reported (fuel : Nat) (p : Picker) (pk : Pick)
    (ctx : PickContext) (hb : p.buffer < 2147483648)
    (hc : p.pickContexts[pk.context]? = some ctx) (hf : spiralFuel p.buffer ≤ fuel) :
    ∃ l : List (Int × Int),
      SpiralIterator.visited fuel fuel
        (SpiralIterator.init ctx.image.s ctx.image.t (max p.buffer 1) pk.u pk.v) = some l ∧
      l.head? = some (centerOf ctx.image pk.u pk.v) ∧
      (∀ (l1 : List (Int × Int)) (q : Int × Int) (l2 : List (Int × Int)) (k : Nat),
        l = l1 ++ q :: l2 → (∀ x ∈ l1, decodeId (ctx.image.read x.1 x.2) = 0) →
        decodeId (ctx.image.read q.1 q.2) = k → k ≠ 0 →
        checkForPickResult fuel p pk =
            some { p with
              pickContexts := disableContext p.pickContexts pk.context
              log := p.log ++ [(pk.callback, CallbackEvent.onHit k)] } ∧
          ∀ ctx2 : PickContext, ctx2.image.s = ctx.image.s → ctx2.image.t = ctx.image.t →
            (∀ x ∈ l1, ctx2.image.read x.1 x.2 = ctx.image.read x.1 x.2) →
            ctx2.image.read q.1 q.2 = ctx.image.read q.1 q.2 →
            pickOutcome fuel p.buffer [ctx2] { pk with context := 0 } =
              some (CallbackEvent.onHit k)) ∧
      (∀ k : Nat,
        decodeId (ctx.image.read (centerOf ctx.image pk.u pk.v).1
          (centerOf ctx.image pk.u pk.v).2) = k → k ≠ 0 →
        checkForPickResult fuel p pk =
          some { p with
            pickContexts := disableContext p.pickContexts pk.context
            log := p.log ++ [(pk.callback, CallbackEvent.onHit k)] }) := by
  obtain ⟨l, hv, ho, _, l0, hl, _⟩ :=
    pickOutcome_spec fuel p.buffer p.pickContexts pk ctx hb hc hf
  have hmain : ∀ (l1 : List (Int × Int)) (q : Int × Int) (l2 : List (Int × Int)) (k : Nat),
      l = l1 ++ q :: l2 → (∀ x ∈ l1, decodeId (ctx.image.read x.1 x.2) = 0) →
      decodeId (ctx.image.read q.1 q.2) = k → k ≠ 0 →
      checkForPickResult fuel p pk =
        some { p with
          pickContexts := disableContext p.pickContexts pk.context
          log := p.log ++ [(pk.callback, CallbackEvent.onHit k)] } := by
    intro l1 q l2 k hsplit hz hq hk
    apply checkForPickResult_eq
    rw [ho]
    congr 1
    exact (firstHit_eq_onHit_iff _ _ _).mpr ⟨hk, l1, q, l2, hsplit, hz, hq⟩
  refine ⟨l, hv, by rw [hl]; rfl, ?_, ?_⟩
  · intro l1 q l2 k hsplit hz hq hk
    refine ⟨hmain l1 q l2 k hsplit hz hq hk, ?_⟩
    intro ctx2 hs ht hagree hqq
    obtain ⟨l3, hv3, ho3, _⟩ := pickOutcome_spec fuel p.buffer [ctx2]
      { pk with context := 0 } ctx2 hb rfl hf
    simp only [hs, ht] at hv3
    rw [hv] at hv3
    have e3 : l3 = l := (Option.some.inj hv3).symm
    rw [ho3, e3]
    congr 1
    refine (firstHit_eq_onHit_iff _ _ _).mpr ⟨hk, l1, q, l2, hsplit, ?_, ?_⟩
    · intro x hx
      rw [hagree x hx]
      exact hz x hx
    · rw [hqq]
      exact hq
  · intro k hq hk
    exact hmain [] _ l0 k (by rw [hl]; rfl) (by intro x hx; cases hx) hq hk

/-- C16 at Scenario B: the centre pixel encodes 42, a neighbour encodes 7, the result is
`onHit(42)`. -/
theorem first_nonzero_pixel_is_reported_witness :
    scenarioB.buffer < 2147483648 ∧ spiralFuel scenarioB.buffer ≤ 42 ∧
    (checkForPickResult 42 scenarioB
        { context := 0, u := half, v := half, callback := 1, frame := 0 }).map
      (fun p => p.log) = some [(1, CallbackEvent.onHit 42)] ∧
    ∃ l : List (Int × Int),
      SpiralIterator.visited 42 42
        (SpiralIterator.init objectAtCenter.s objectAtCenter.t (max scenarioB.buffer 1)
          half half) = some l ∧
      l.head? = some (centerOf objectAtCenter half half) ∧
      (∀ (l1 : List (Int × Int)) (q : Int × Int) (l2 : List (Int × Int)) (k : Nat),
        l = l1 ++ q :: l2 → (∀ x ∈ l1, decodeId (objectAtCenter.read x.1 x.2) = 0) →
        decodeId (objectAtCenter.read q.1 q.2) = k → k ≠ 0 →
        checkForPickResult 42 scenarioB
            { context := 0, u := half, v := half, callback := 1, frame := 0 } =
            some { scenarioB with
              pickContexts := disableContext scenarioB.pickContexts 0
              log := scenarioB.log ++ [(1, CallbackEvent.onHit k)] } ∧
          ∀ ctx2 : PickContext, ctx2.image.s = objectAtCenter.s →
            ctx2.image.t = objectAtCenter.t →
            (∀ x ∈ l1, ctx2.image.read x.1 x.2 = objectAtCenter.read x.1 x.2) →
            ctx2.image.read q.1 q.2 = objectAtCenter.read q.1 q.2 →
            pickOutcome 42 scenarioB.buffer [ctx2]
                { context := 0, u := half, v := half, callback := 1, frame := 0 } =
              some (CallbackEvent.onHit k)) ∧
      (∀ k : Nat,
        decodeId (objectAtCenter.read (centerOf objectAtCenter half half).1
          (centerOf objectAtCenter half half).2) = k → k ≠ 0 →
        checkForPickResult 42 scenarioB
            { context := 0, u := half, v := half, callback := 1, frame := 0 } =
          some { scenarioB with
            pickContexts := disableContext scenarioB.pickContexts 0
            log := scenarioB.log ++ [(1, CallbackEvent.onHit k)] }) :=
  ⟨by decide, by decide, by decide,
    first_nonzero_pixel_is_reported 42 scenarioB
      { context := 0, u := half, v := half, callback := 1, frame := 0 }
      { view := 0, image := objectAtCenter, nodeMask := 4294967295 }
      (by decide) rfl (by decide)⟩

/-! ## The spiral: order, distinctness and number of the yielded pixels -/

namespace SpiralIterator

theorem pos_eq_of_same_offset {R : Nat} {a b : SpiralIterator} (ha : OnTrack R a)
    (hb : OnTrack R b) (hx : a.x = b.x) (hy : a.y = b.y) : pos a = pos b := by
  obtain ⟨_, a1, _, al⟩ := ha
  obtain ⟨_, b1, _, bl⟩ := hb
  have hring : a.ring = b.ring ∧ a.leg = b.leg := by
    rcases al with ⟨l1, h2, h3, h4⟩ | ⟨l1, h2, h3, h4⟩ | ⟨l1, h2, h3, h4⟩ | ⟨l1, h2, h3, h4⟩ <;>
    rcases bl with ⟨m1, k2, k3, k4⟩ | ⟨m1, k2, k3, k4⟩ | ⟨m1, k2, k3, k4⟩ | ⟨m1, k2, k3, k4⟩ <;>
    omega
  unfold pos
  rw [hring.1, hring.2, hx, hy]

theorem dist_mono_of_pos_le {R : Nat} {a b : SpiralIterator} (ha : OnTrack R a)
    (hb : OnTrack R b) (hab : pos a ≤ pos b) :
    max a.x.natAbs a.y.natAbs ≤ max b.x.natAbs b.y.natAbs := by
  have pa := pos_lt_of_onTrack ha
  have pb := pos_lt_of_onTrack hb
  obtain ⟨_, a1, _, al⟩ := ha
  obtain ⟨_, b1, _, bl⟩ := hb
  have hsa := ringBase_succ (a.ring : Int)
  have hsb := ringBase_succ (b.ring : Int)
  rcases Nat.lt_trichotomy a.ring b.ring with hlt | heq | hgt
  · rcases al with ⟨l1, h2, h3, h4⟩ | ⟨l1, h2, h3, h4⟩ | ⟨l1, h2, h3, h4⟩ | ⟨l1, h2, h3, h4⟩ <;>
    rcases bl with ⟨m1, k2, k3, k4⟩ | ⟨m1, k2, k3, k4⟩ | ⟨m1, k2, k3, k4⟩ | ⟨m1, k2, k3, k4⟩ <;>
    omega
  · unfold pos at hab
    rw [heq] at hab
    rcases al with ⟨l1, h2, h3, h4⟩ | ⟨l1, h2, h3, h4⟩ | ⟨l1, h2, h3, h4⟩ | ⟨l1, h2, h3, h4⟩ <;>
    rcases bl with ⟨m1, k2, k3, k4⟩ | ⟨m1, k2, k3, k4⟩ | ⟨m1, k2, k3, k4⟩ | ⟨m1, k2, k3, k4⟩ <;>
    simp only [l1, m1] at hab <;> omega
  · exfalso
    have hm : ringBase ((b.ring : Int) + 1) ≤ ringBase (a.ring : Int) :=
      ringBase_mono (by omega) (by omega)
    omega

theorem sameFrame_trans {a b c : SpiralIterator} (hab : SameFrame a b) (hbc : SameFrame b c) :
    SameFrame a c := by
  unfold SameFrame at hab hbc ⊢
  refine ⟨?_, ?_, ?_, ?_, ?_⟩ <;> omega

theorem visited_trace {R : Nat} (hR : R < 2147483648) :
    ∀ (k fuel : Nat) (it : SpiralIterator), OnTrack R it → it.ring ≤ R →
      it.count < 4294967296 → stepsLeft R it ≤ fuel →
      2 * stepsLeft R it + (if it.count = 0 then 1 else 0) < k →
      ∃ ss : List SpiralIterator,
        visited fuel k it = some (ss.map (fun s => (s.s, s.t))) ∧
        (∀ s ∈ ss, OnTrack R s ∧ s.ring ≤ R ∧ SameFrame it s ∧ pos it ≤ pos s ∧
          (it.count ≠ 0 → pos it < pos s)) ∧
        ss.Pairwise (fun a b => pos a ≤ pos b) ∧
        ((if it.count = 0 then 1 else it.count) + stepsLeft R it < 4294967296 →
          ss.Pairwise (fun a b => pos a < pos b)) ∧
        4294967295 * ss.length ≤
          4294967296 * (stepsLeft R it - 1) +
            (if it.count = 0 then 4294967295 else it.count - 1) := by
  intro k
  induction k with
  | zero => intro fuel it _ _ _ _ hk; omega
  | succ n ih =>
    intro fuel it ht hr hcnt hf hk
    have ht0 : OnTrack R it.tick := ht
    have hf0 : stepsLeft R it.tick ≤ fuel := hf
    have hs0 : stepsLeft R it.tick = stepsLeft R it := rfl
    have hp0 : pos it.tick = pos it := rfl
    have hsf0 : SameFrame it it.tick := ⟨rfl, rfl, rfl, rfl, rfl⟩
    have hlt := stepsLeft_pos ht hr
    have hL1 : 1 ≤ stepsLeft R it := by unfold stepsLeft; omega
    by_cases hc : it.count = 0
    · have hc0 : it.tick.count = 1 := by simp [tick, hc]
      have hk0 : 2 * stepsLeft R it.tick + (if it.tick.count = 0 then 1 else 0) < n := by
        rw [hs0, hc0]
        simp only [hc, if_true] at hk
        simp only [one_ne_zero, if_false]
        omega
      obtain ⟨ss, e, hprops, hpw, hstrict, hcredit⟩ :=
        ih fuel _ ht0 hr (by rw [hc0]; omega) hf hk0
      refine ⟨it.tick :: ss, ?_, ?_, ?_, ?_, ?_⟩
      · simp only [visited, next, hc, if_true, e, List.map_cons]
      · intro s hs
        rcases List.mem_cons.mp hs with rfl | hs
        · exact ⟨ht0, hr, hsf0, le_of_eq hp0.symm, fun h => absurd hc h⟩
        · obtain ⟨q1, q2, q3, q4, _⟩ := hprops s hs
          exact ⟨q1, q2, q3, by omega, fun h => absurd hc h⟩
      · refine List.Pairwise.cons ?_ hpw
        intro s hs
        exact (hprops s hs).2.2.2.1
      · intro hH
        simp only [hc, if_true] at hH
        refine List.Pairwise.cons ?_ (hstrict ?_)
        · intro s hs
          exact (hprops s hs).2.2.2.2 (by rw [hc0]; exact one_ne_zero)
        · rw [hc0, hs0]
          simp only [one_ne_zero, if_false]
          exact hH
      · rw [hc0, hs0] at hcredit
        simp only [one_ne_zero, if_false] at hcredit
        simp only [hc, if_true, List.length_cons]
        omega
    · obtain ⟨it1, e1, t1, p1, s1, c1, b1⟩ := spin_spec hR fuel _ ht0 hr hf0
      have p1 : pos it < pos it1 := p1
      have s1 : SameFrame it it1 := s1
      have c1 : it1.count = (it.count + 1) % 4294967296 := c1
      by_cases hr1 : it1.ring ≤ R
      · have hlt1 := stepsLeft_pos t1 hr1
        have hL : stepsLeft R it1 + 1 ≤ stepsLeft R it := by
          unfold stepsLeft
          omega
        have hL2 : 1 ≤ stepsLeft R it1 := by unfold stepsLeft; omega
        have hk1 : 2 * stepsLeft R it1 + (if it1.count = 0 then 1 else 0) < n := by
          simp only [hc, if_false] at hk
          split_ifs <;> omega
        obtain ⟨ss, e, hprops, hpw, hstrict, hcredit⟩ :=
          ih fuel it1 t1 hr1 (by rw [c1]; omega) (by omega) hk1
        refine ⟨it1 :: ss, ?_, ?_, ?_, ?_, ?_⟩
        · have hd : decide (it1.ring ≤ it1.maxRing) = true := by
            have := t1.1
            simp only [decide_eq_true_eq]; omega
          simp only [visited, next, hc, if_false, e1, hd, e, List.map_cons]
        · intro s hs
          rcases List.mem_cons.mp hs with rfl | hs
          · exact ⟨t1, hr1, s1, by omega, fun _ => p1⟩
          · obtain ⟨q1, q2, q3, q4, _⟩ := hprops s hs
            exact ⟨q1, q2, sameFrame_trans s1 q3, by omega, fun _ => by omega⟩
        · refine List.Pairwise.cons ?_ hpw
          intro s hs
          exact (hprops s hs).2.2.2.1
        · intro hH
          simp only [hc, if_false] at hH
          have hc1 : it1.count = it.count + 1 := by rw [c1]; omega
          refine List.Pairwise.cons ?_ (hstrict ?_)
          · intro s hs
            exact (hprops s hs).2.2.2.2 (by omega)
          · rw [hc1]
            simp only [Nat.add_one_ne_zero, if_false]
            omega
        · simp only [hc, if_false, List.length_cons]
          rw [c1] at hcredit
          split_ifs at hcredit <;> omega
      · refine ⟨[], ?_, ?_, ?_, ?_, ?_⟩
        · have hd : decide (it1.ring ≤ it1.maxRing) = false := by
            have := t1.1
            simp only [decide_eq_false_iff_not]; omega
          simp only [visited, next, hc, if_false, e1, hd, List.map_nil]
        · intro s hs; cases hs
        · exact List.Pairwise.nil
        · intro _; exact List.Pairwise.nil
        · simp

theorem startAt_onTrack (w h cx cy : Int) {R : Nat} (hR1 : 1 ≤ R) :
    OnTrack R (startAt w h R cx cy) := by
  refine ⟨rfl, Nat.le_refl 1, ?_, Or.inl ⟨rfl, ?_, ?_, ?_⟩⟩ <;>
    simp only [startAt] <;> omega

theorem startAt_stepsLeft (w h cx cy : Int) (R : Nat) :
    stepsLeft R (startAt w h R cx cy) = (2 * R + 1) * (2 * R) := by
  unfold stepsLeft pos ringBase
  simp only [startAt]
  have : (2 * ((R : Int) + 1) - 1) * (2 * ((R : Int) + 1) - 2) -
      ((2 * ((1 : Nat) : Int) - 1) * (2 * ((1 : Nat) : Int) - 2) + (0 + ((1 : Nat) : Int) - 1)) =
      (((2 * R + 1) * (2 * R) : Nat) : Int) := by
    push_cast; ring
  rw [this, Int.toNat_ofNat]

theorem chebyshev_of_sameFrame {w h cx cy : Int} {R : Nat} {s : SpiralIterator}
    (hs : SameFrame (startAt w h R cx cy) s) :
    chebyshev (s.s, s.t) (cx, cy) = max s.x.natAbs s.y.natAbs := by
  obtain ⟨_, _, hx, hy, _⟩ := hs
  simp only [startAt] at hx hy
  unfold chebyshev SpiralIterator.s SpiralIterator.t
  simp only [← hx, ← hy, add_sub_cancel_right]

theorem visited_take_strict {R : Nat} (hR : R < 2147483648) :
    ∀ (k fuel : Nat) (it : SpiralIterator), OnTrack R it → it.ring ≤ R →
      it.count < 4294967296 → stepsLeft R it ≤ fuel →
      2 * stepsLeft R it + (if it.count = 0 then 1 else 0) < k →
      ∃ ss : List SpiralIterator,
        visited fuel k it = some (ss.map (fun s => (s.s, s.t))) ∧
        (∀ s ∈ ss, OnTrack R s ∧ SameFrame it s ∧ pos it ≤ pos s ∧
          (it.count ≠ 0 → pos it < pos s)) ∧
        (ss.take (4294967296 - it.count)).Pairwise (fun a b => pos a < pos b) := by
  intro k
  induction k with
  | zero => intro fuel it _ _ _ _ hk; omega
  | succ n ih =>
    intro fuel it ht hr hcnt hf hk
    have ht0 : OnTrack R it.tick := ht
    have hf0 : stepsLeft R it.tick ≤ fuel := hf
    have hs0 : stepsLeft R it.tick = stepsLeft R it := rfl
    have hp0 : pos it.tick = pos it := rfl
    have hsf0 : SameFrame it it.tick := ⟨rfl, rfl, rfl, rfl, rfl⟩
    have hlt := stepsLeft_pos ht hr
    have hL1 : 1 ≤ stepsLeft R it := by unfold stepsLeft; omega
    by_cases hc : it.count = 0
    · have hc0 : it.tick.count = 1 := by simp [tick, hc]
      have hk0 : 2 * stepsLeft R it.tick + (if it.tick.count = 0 then 1 else 0) < n := by
        rw [hs0, hc0]
        simp only [hc, if_true] at hk
        simp only [one_ne_zero, if_false]
        omega
      obtain ⟨ss, e, hprops, hstrict⟩ := ih fuel _ ht0 hr (by rw [hc0]; omega) hf hk0
      refine ⟨it.tick :: ss, ?_, ?_, ?_⟩
      · simp only [visited, next, hc, if_true, e, List.map_cons]
      · intro s hs
        rcases List.mem_cons.mp hs with rfl | hs
        · exact ⟨ht0, hsf0, le_of_eq hp0.symm, fun h => absurd hc h⟩
        · obtain ⟨q1, q3, q4, _⟩ := hprops s hs
          exact ⟨q1, q3, by omega, fun h => absurd hc h⟩
      · have hb : 4294967296 - it.count = (4294967296 - it.tick.count) + 1 := by
          rw [hc, hc0]
        rw [hb, List.take_succ_cons]
        refine List.Pairwise.cons ?_ hstrict
        intro s hs
        exact (hprops s (List.mem_of_mem_take hs)).2.2.2 (by rw [hc0]; exact one_ne_zero)
    · obtain ⟨it1, e1, t1, p1, s1, c1, b1⟩ := spin_spec hR fuel _ ht0 hr hf0
      have p1 : pos it < pos it1 := p1
      have s1 : SameFrame it it1 := s1
      have c1 : it1.count = (it.count + 1) % 4294967296 := c1
      by_cases hr1 : it1.ring ≤ R
      · have hlt1 := stepsLeft_pos t1 hr1
        have hL : stepsLeft R it1 + 1 ≤ stepsLeft R it := by
          unfold stepsLeft
          omega
        have hk1 : 2 * stepsLeft R it1 + (if it1.count = 0 then 1 else 0) < n := by
          simp only [hc, if_false] at hk
          split_ifs <;> omega
        obtain ⟨ss, e, hprops, hstrict⟩ :=
          ih fuel it1 t1 hr1 (by rw [c1]; omega) (by omega) hk1
        refine ⟨it1 :: ss, ?_, ?_, ?_⟩
        · have hd : decide (it1.ring ≤ it1.maxRing) = true := by
            have := t1.1
            simp only [decide_eq_true_eq]; omega
          simp only [visited, next, hc, if_false, e1, hd, e, List.map_cons]
        · intro s hs
          rcases List.mem_cons.mp hs with rfl | hs
          · exact ⟨t1, s1, by omega, fun _ => p1⟩
          · obtain ⟨q1, q3, q4, _⟩ := hprops s hs
            exact ⟨q1, sameFrame_trans s1 q3, by omega, fun _ => by omega⟩
        · have hb : 4294967296 - it.count = (4294967296 - it.count - 1) + 1 := by omega
          rw [hb, List.take_succ_cons]
          by_cases hw : it.count + 1 < 4294967296
          · have hc1 : it1.count = it.count + 1 := by rw [c1]; omega
            have hb1 : 4294967296 - it.count - 1 = 4294967296 - it1.count := by omega
            rw [hb1]
            refine List.Pairwise.cons ?_ hstrict
            intro s hs
            exact (hprops s (List.mem_of_mem_take hs)).2.2.2 (by omega)
          · have hb0 : 4294967296 - it.count - 1 = 0 := by omega
            rw [hb0, List.take_zero]
            exact List.pairwise_singleton _ _
      · refine ⟨[], ?_, ?_, ?_⟩
        · have hd : decide (it1.ring ≤ it1.maxRing) = false := by
            have := t1.1
            simp only [decide_eq_false_iff_not]; omega
          simp only [visited, next, hc, if_false, e1, hd, List.map_nil]
        · intro s hs; cases hs
        · simp

end SpiralIterator

theorem length_le_of_nodup_inBounds (w h : Int) (l : List (Int × Int)) (hn : l.Nodup)
    (hb : ∀ q ∈ l, InBounds w h q) : l.length ≤ w.toNat * h.toNat := by
  have hsub : l.toFinset ⊆ Finset.Ico (0 : Int) w ×ˢ Finset.Ico (0 : Int) h := by
    intro q hq
    have := hb q (List.mem_toFinset.mp hq)
    unfold InBounds at this
    simp only [Finset.mem_product, Finset.mem_Ico]
    omega
  calc l.length = l.toFinset.card := (List.toFinset_card_of_nodup hn).symm
    _ ≤ (Finset.Ico (0 : Int) w ×ˢ Finset.Ico (0 : Int) h).card := Finset.card_le_card hsub
    _ = w.toNat * h.toNat := by
      rw [Finset.card_product, Int.card_Ico, Int.card_Ico]
      simp

/-- C15: for every buffer size `w x h`, every centre pixel `(cx, cy)` (in the buffer or not)
and every search radius `R` with `1 <= R` that fits an `int`, calling `next()` until it returns
false comes to an end (with enough fuel the list of yielded pixels is returned), and the
number of yielded pixels is at most `(2R+1)^2`; the constructor produces `startAt` with the
truncated centre. -/
theorem spiral_terminates_within_square (w h cx cy : Int) (R fuel k : Nat) (hR1 : 1 ≤ R)
    (hR : R < 2147483648) (hfuel : (2 * R + 1) * (2 * R) ≤ fuel)
    (hk : 2 * ((2 * R + 1) * (2 * R)) + 2 ≤ k) :
    (∃ l, SpiralIterator.visited fuel k (SpiralIterator.startAt w h R cx cy) = some l ∧
      l.length ≤ (2 * R + 1) ^ 2) ∧
    (∀ (maxDist : Int) (u v : FloatVal), toUnsigned maxDist = R →
      SpiralIterator.init w h maxDist u v =
        SpiralIterator.startAt w h R (u.mulFloat w).toInt (v.mulFloat h).toInt) := by
  constructor
  · have ht := SpiralIterator.startAt_onTrack w h cx cy hR1
    have hs := SpiralIterator.startAt_stepsLeft w h cx cy R
    have h0 : (SpiralIterator.startAt w h R cx cy).count = 0 := rfl
    obtain ⟨ss, e, _, _, _, hcredit⟩ := SpiralIterator.visited_trace hR k fuel _ ht hR1
      (by rw [h0]; omega) (by omega) (by rw [h0]; simp only [if_true]; omega)
    refine ⟨_, e, ?_⟩
    rw [List.length_map]
    rw [h0, hs] at hcredit
    simp only [if_true] at hcredit
    have h1 : (2 * R + 1) * (2 * R) ≤ (2 * R + 1) * 4294967295 :=
      Nat.mul_le_mul_left _ (by omega)
    have h2 : (2 * R + 1) ^ 2 = (2 * R + 1) * (2 * R) + 2 * R + 1 := by ring
    have h3 : 1 ≤ (2 * R + 1) * (2 * R) := Nat.mul_pos (by omega) (by omega)
    rw [h2]
    omega
  · intro maxDist u v hm
    rw [← hm]
    rfl

/-- C15 at a 3 x 3 buffer with centre (1,1) and radius 1: six pixels, at most nine. -/
theorem spiral_terminates_within_square_witness :
    1 ≤ 1 ∧ 1 < 2147483648 ∧ (2 * 1 + 1) * (2 * 1) ≤ 6 ∧ 2 * ((2 * 1 + 1) * (2 * 1)) + 2 ≤ 14 ∧
    (SpiralIterator.visited 6 14 (SpiralIterator.startAt 3 3 1 1 1)).map List.length = some 6 ∧
    ((∃ l, SpiralIterator.visited 6 14 (SpiralIterator.startAt 3 3 1 1 1) = some l ∧
      l.length ≤ (2 * 1 + 1) ^ 2) ∧
    (∀ (maxDist : Int) (u v : FloatVal), toUnsigned maxDist = 1 →
      SpiralIterator.init 3 3 maxDist u v =
        SpiralIterator.startAt 3 3 1 (u.mulFloat 3).toInt (v.mulFloat 3).toInt)) :=
  ⟨by decide, by decide, by decide, by decide, by decide,
    spiral_terminates_within_square 3 3 1 1 1 6 14 (by decide) (by decide) (by decide)
      (by decide)⟩

/-- C19: for every buffer size `w x h`, every centre pixel and every search radius `R` with
`1 <= R` that fits an `int`, calling `next()` until it returns false yields the pixels in
non-decreasing Chebyshev distance from the centre, so a pixel of the list is never nearer to
the centre than a pixel yielded before it; every yielded pixel is the pixel of a position of
the spiral, and no position of the spiral that comes before it (visited or skipped) is farther
from the centre.  The first `2^32` yielded pixels are pairwise distinct, and so are all
yielded pixels when `R <= 32767` or when the buffer has fewer than `2^32 - 1` pixels: then
`next()` is called fewer than `2^32` times after the first call and the unsigned `_count` does
not come back to 0.  This covers the radius `max(_buffer, 1) = 2` of the picker.  The
constructor produces `startAt` with the truncated centre. -/
theorem spiral_yields_outward_and_distinct (w h cx cy : Int) (R fuel k : Nat) (hR1 : 1 ≤ R)
    (hR : R < 2147483648) (hfuel : (2 * R + 1) * (2 * R) ≤ fuel)
    (hk : 2 * ((2 * R + 1) * (2 * R)) + 2 ≤ k) :
    (∃ l, SpiralIterator.visited fuel k (SpiralIterator.startAt w h R cx cy) = some l ∧
      l.Pairwise (fun a b => chebyshev a (cx, cy) ≤ chebyshev b (cx, cy)) ∧
      (∀ l1 q l2, l = l1 ++ q :: l2 →
        ∀ x ∈ l1, chebyshev x (cx, cy) ≤ chebyshev q (cx, cy)) ∧
      (∃ ss : List SpiralIterator, l = ss.map (fun s => (s.s, s.t)) ∧
        ∀ s ∈ ss, SpiralIterator.OnTrack R s ∧
          ∀ a : SpiralIterator, SpiralIterator.OnTrack R a →
            SpiralIterator.pos a ≤ SpiralIterator.pos s →
            chebyshev (a.x + cx, a.y + cy) (cx, cy) ≤ chebyshev (s.s, s.t) (cx, cy)) ∧
      (l.take 4294967296).Nodup ∧
      (R ≤ 32767 ∨ w.toNat * h.toNat < 4294967295 → l.Nodup)) ∧
    (∀ (maxDist : Int) (u v : FloatVal), toUnsigned maxDist = R →
      SpiralIterator.init w h maxDist u v =
        SpiralIterator.startAt w h R (u.mulFloat w).toInt (v.mulFloat h).toInt) := by
  have ht := SpiralIterator.startAt_onTrack w h cx cy hR1
  have hs := SpiralIterator.startAt_stepsLeft w h cx cy R
  have h0 : (SpiralIterator.startAt w h R cx cy).count = 0 := rfl
  obtain ⟨ss, e, hprops, hpw, hstrict, _⟩ := SpiralIterator.visited_trace hR k fuel _ ht hR1
    (by rw [h0]; omega) (by omega) (by rw [h0]; simp only [if_true]; omega)
  obtain ⟨ts, et, tprops, tstrict⟩ := SpiralIterator.visited_take_strict hR k fuel _ ht hR1
    (by rw [h0]; omega) (by omega) (by rw [h0]; simp only [if_true]; omega)
  obtain ⟨l0, e0, _, _, hcentre⟩ := SpiralIterator.visited_spec hR k fuel _ ht hR1
    (by omega) (by rw [h0]; simp only [if_true]; omega)
  obtain ⟨l1, hl1, hin⟩ := hcentre h0
  have hsorted : (ss.map (fun s => (s.s, s.t))).Pairwise
      (fun a b => chebyshev a (cx, cy) ≤ chebyshev b (cx, cy)) := by
    rw [List.pairwise_map]
    refine hpw.imp_of_mem ?_
    intro a b ha hb hab
    obtain ⟨ta, _, fa, _⟩ := hprops a ha
    obtain ⟨tb, _, fb, _⟩ := hprops b hb
    rw [SpiralIterator.chebyshev_of_sameFrame fa, SpiralIterator.chebyshev_of_sameFrame fb]
    exact SpiralIterator.dist_mono_of_pos_le ta tb hab
  have hdistinct : ∀ a b : SpiralIterator,
      (SpiralIterator.OnTrack R a ∧
        SpiralIterator.SameFrame (SpiralIterator.startAt w h R cx cy) a) →
      (SpiralIterator.OnTrack R b ∧
        SpiralIterator.SameFrame (SpiralIterator.startAt w h R cx cy) b) →
      SpiralIterator.pos a < SpiralIterator.pos b → (a.s, a.t) ≠ (b.s, b.t) := by
    intro a b ha hb hab heq
    obtain ⟨ta, fa⟩ := ha
    obtain ⟨tb, fb⟩ := hb
    obtain ⟨_, _, ax, ay, _⟩ := fa
    obtain ⟨_, _, bx, byy, _⟩ := fb
    have hxy : a.x = b.x ∧ a.y = b.y := by
      simp only [Prod.mk.injEq, SpiralIterator.s, SpiralIterator.t] at heq
      constructor <;> omega
    have := SpiralIterator.pos_eq_of_same_offset ta tb hxy.1 hxy.2
    omega
  have hsame : ss.map (fun s => (s.s, s.t)) = ts.map (fun s => (s.s, s.t)) := by
    rw [e] at et
    exact Option.some.inj et
  have htake : ((ss.map (fun s => (s.s, s.t))).take 4294967296).Nodup := by
    rw [hsame, ← List.map_take]
    show List.Pairwise (fun a b => a ≠ b) ((ts.take 4294967296).map (fun s => (s.s, s.t)))
    rw [List.pairwise_map]
    have tstrict : (ts.take 4294967296).Pairwise
        (fun a b => SpiralIterator.pos a < SpiralIterator.pos b) := tstrict
    refine tstrict.imp_of_mem ?_
    intro a b ha hb hab
    obtain ⟨ta, fa, _⟩ := tprops a (List.mem_of_mem_take ha)
    obtain ⟨tb, fb, _⟩ := tprops b (List.mem_of_mem_take hb)
    exact hdistinct a b ⟨ta, fa⟩ ⟨tb, fb⟩ hab
  refine ⟨⟨_, e, hsorted, ?_, ⟨ss, rfl, ?_⟩, htake, ?_⟩, ?_⟩
  · intro l1 q l2 hl x hx
    rw [hl, List.pairwise_append] at hsorted
    exact hsorted.2.2 x hx q (List.mem_cons_self _ _)
  · intro s hs
    obtain ⟨ts, _, fs, _⟩ := hprops s hs
    refine ⟨ts, ?_⟩
    intro a ta hpos
    rw [SpiralIterator.chebyshev_of_sameFrame fs]
    have := SpiralIterator.dist_mono_of_pos_le ta ts hpos
    unfold chebyshev
    simp only [add_sub_cancel_right]
    exact this
  · intro hsmall
    rcases hsmall with hsmall | hsmall
    · have hL : (2 * R + 1) * (2 * R) ≤ 65535 * 65534 :=
        Nat.mul_le_mul (by omega) (by omega)
      have hst := hstrict (by rw [h0, hs]; simp only [if_true]; omega)
      show List.Pairwise (fun a b => a ≠ b) (ss.map (fun s => (s.s, s.t)))
      rw [List.pairwise_map]
      refine hst.imp_of_mem ?_
      intro a b ha hb hab
      obtain ⟨ta, _, fa, _⟩ := hprops a ha
      obtain ⟨tb, _, fb, _⟩ := hprops b hb
      exact hdistinct a b ⟨ta, fa⟩ ⟨tb, fb⟩ hab
    · have hl0 : ss.map (fun s => (s.s, s.t)) = l0 := by
        rw [e] at e0
        exact Option.some.inj e0
      by_cases hlen : (ss.map (fun s => (s.s, s.t))).length ≤ 4294967296
      · rw [List.take_of_length_le hlen] at htake
        exact htake
      · exfalso
        rw [hl0, hl1] at htake hlen
        have h1 : 4294967296 = 4294967295 + 1 := rfl
        rw [h1, List.take_succ_cons] at htake
        have hnd := (List.nodup_cons.mp htake).2
        have hle := length_le_of_nodup_inBounds w h (l1.take 4294967295) hnd
          (fun q hq => hin q (List.mem_of_mem_take hq))
        rw [List.length_take] at hle
        simp only [List.length_cons] at hlen
        have hmin : min 4294967295 l1.length = 4294967295 := by omega
        rw [hmin] at hle
        omega
  · intro maxDist u v hm
    rw [← hm]
    rfl

/-- C19 at a 5 x 5 buffer with centre (2,2) and the radius 2 that the picker passes: the 20
yielded pixels, in order. -/
theorem spiral_yields_outward_and_distinct_witness :
    1 ≤ 2 ∧ 2 < 2147483648 ∧ (2 * 2 + 1) * (2 * 2) ≤ 20 ∧ 2 * ((2 * 2 + 1) * (2 * 2)) + 2 ≤ 42 ∧
    maxRingOf (Picker.create 5).buffer = 2 ∧
    SpiralIterator.visited 20 42 (SpiralIterator.startAt 5 5 2 2 2) =
      some [(2, 2), (3, 2), (3, 3), (2, 3), (1, 3), (1, 2), (1, 1), (2, 1), (3, 1), (4, 1),
        (4, 2), (4, 3), (4, 4), (3, 4), (2, 4), (1, 4), (0, 4), (0, 3), (0, 2), (0, 1)] ∧
    ((∃ l, SpiralIterator.visited 20 42 (SpiralIterator.startAt 5 5 2 2 2) = some l ∧
      l.Pairwise (fun a b => chebyshev a (2, 2) ≤ chebyshev b (2, 2)) ∧
      (∀ l1 q l2, l = l1 ++ q :: l2 →
        ∀ x ∈ l1, chebyshev x (2, 2) ≤ chebyshev q (2, 2)) ∧
      (∃ ss : List SpiralIterator, l = ss.map (fun s => (s.s, s.t)) ∧
        ∀ s ∈ ss, SpiralIterator.OnTrack 2 s ∧
          ∀ a : SpiralIterator, SpiralIterator.OnTrack 2 a →
            SpiralIterator.pos a ≤ SpiralIterator.pos s →
            chebyshev (a.x + 2, a.y + 2) (2, 2) ≤ chebyshev (s.s, s.t) (2, 2)) ∧
      (l.take 4294967296).Nodup ∧
      ((2 : Nat) ≤ 32767 ∨ (5 : Int).toNat * (5 : Int).toNat < 4294967295 → l.Nodup)) ∧
    (∀ (maxDist : Int) (u v : FloatVal), toUnsigned maxDist = 2 →
      SpiralIterator.init 5 5 maxDist u v =
        SpiralIterator.startAt 5 5 2 (u.mulFloat 5).toInt (v.mulFloat 5).toInt)) :=
  ⟨by decide, by decide, by decide, by decide, by decide, by decide,
    spiral_yields_outward_and_distinct 5 5 2 2 2 20 42 (by decide) (by decide) (by decide)
      (by decide)⟩

namespace SpiralIterator

theorem ring_le_of_pos_lt {R : Nat} {a : SpiralIterator} (ha : OnTrack R a)
    (hp : pos a < ringBase ((R : Int) + 1)) : a.ring ≤ R := by
  have h1 := (pos_lt_of_onTrack ha).1
  have h2 := ha.2.2.1
  by_contra hgt
  have e : a.ring = R + 1 := by omega
  rw [e] at h1
  push_cast at h1
  omega

theorem visited_of_count_zero {fuel k : Nat} {it : SpiralIterator} {l : List (Int × Int)}
    (hc : it.count = 0) (hv : visited fuel k it = some l) :
    ∃ l1 k1, l = (it.s, it.t) :: l1 ∧ visited fuel k1 it.tick = some l1 := by
  cases k with
  | zero => simp [visited] at hv
  | succ n =>
    unfold visited at hv
    simp only [next, hc, if_true] at hv
    cases hv1 : visited fuel n it.tick with
    | none => rw [hv1] at hv; simp at hv
    | some l1 =>
      rw [hv1] at hv
      simp only [Option.some.injEq] at hv
      exact ⟨l1, n, hv.symm, hv1⟩

theorem repeat_after_wrap {R : Nat} (hR : R < 2147483648) :
    ∀ (d : Nat) (s : SpiralIterator), OnTrack R s → s.ring ≤ R → d < 4294967296 →
      s.count = (4294967296 - d) % 4294967296 → pos s + d < ringBase ((R : Int) + 1) →
      (0 ≤ -(R : Int) + s.offsetX ∧ (R : Int) + s.offsetX < s.w ∧
        0 ≤ -(R : Int) + s.offsetY ∧ (R : Int) + s.offsetY < s.h) →
      ∀ (fuel k : Nat) (l : List (Int × Int)), visited fuel k s = some l →
        ¬ ((s.s, s.t) :: l).Nodup := by
  intro d
  induction d with
  | zero =>
    intro s _ _ _ hc _ _ fuel k l hv
    have hc0 : s.count = 0 := by rw [hc]
    obtain ⟨l1, _, hl, _⟩ := visited_of_count_zero hc0 hv
    rw [hl]
    intro hnd
    exact (List.nodup_cons.mp hnd).1 (List.mem_cons_self _ _)
  | succ d ih =>
    intro s ht hr hd hc hp hwin fuel k l hv
    have hc0 : s.count ≠ 0 := by rw [hc]; omega
    have ht0 : OnTrack R s.tick := ht
    obtain ⟨ha, hpa, hfa, hca⟩ := advance_spec hR ht0 hr
    have hpa : pos s.tick.advance = pos s + 1 := hpa
    have hra : s.tick.advance.ring ≤ R := ring_le_of_pos_lt ha (by omega)
    have hrad := onTrack_radius ha hra
    obtain ⟨fw, fh, fx, fy, _⟩ := hfa
    have fw : s.w = s.tick.advance.w := fw
    have fh : s.h = s.tick.advance.h := fh
    have fx : s.offsetX = s.tick.advance.offsetX := fx
    have fy : s.offsetY = s.tick.advance.offsetY := fy
    have hin : s.tick.advance.outOfBounds = false := by
      unfold outOfBounds
      simp only [Bool.or_eq_false_iff, decide_eq_false_iff_not]
      omega
    have hcount : s.tick.advance.count = (4294967296 - d) % 4294967296 := by
      rw [hca]
      show (s.count + 1) % 4294967296 = _
      rw [hc]
      omega
    cases k with
    | zero => simp [visited] at hv
    | succ n =>
      cases fuel with
      | zero =>
        unfold visited at hv
        simp [next, hc0, spin] at hv
      | succ f =>
        have hspin : spin (f + 1) s.tick = some s.tick.advance := by
          simp only [spin, hin, Bool.false_eq_true, and_false, if_false]
        have hd1 : decide (s.tick.advance.ring ≤ s.tick.advance.maxRing) = true := by
          have := ha.1
          simp only [decide_eq_true_eq]; omega
        unfold visited at hv
        simp only [next, hc0, if_false, hspin, hd1] at hv
        cases hv1 : visited (f + 1) n s.tick.advance with
        | none => rw [hv1] at hv; simp at hv
        | some l1 =>
          rw [hv1] at hv
          simp only [Option.some.injEq] at hv
          have hrec := ih s.tick.advance ha hra (by omega) hcount (by omega)
            (by omega) (f + 1) n l1 hv1
          rw [← hv]
          intro hnd
          exact hrec (List.nodup_cons.mp hnd).2

end SpiralIterator

/-- The bound of `2^32` distinct yields is sharp for the iterator taken by itself: for a
65537 x 65537 buffer with centre (32768, 32768) and search radius 32768 every pixel of the
window is in bounds, so after the first call every call of `next()` moves one step; the
unsigned `_count` is 0 again at call number `2^32 + 1`, before the last ring is finished, and
that call yields the pixel of the call before it once more.  The picker does not construct
such an iterator: the radius it passes is `max(_buffer, 1)` with `_buffer = 2`. -/
theorem count_wraps_after_two_pow_32_yields :
    ∃ l, SpiralIterator.visited (spiralFuel 32768) (spiralFuel 32768)
        (SpiralIterator.init 65537 65537 (max 32768 1) half half) = some l ∧
      ¬ l.Nodup := by
  have hm : maxRingOf 32768 = 32768 := by decide
  have hR : (32768 : Nat) < 2147483648 := by decide
  have ht := init_onTrack 65537 65537 half half (show (32768 : Int) < 2147483648 by decide)
  have hs := init_stepsLeft 65537 65537 half half 32768
  rw [hm] at ht hs
  have h0 : (SpiralIterator.init 65537 65537 (max 32768 1) half half).count = 0 := rfl
  obtain ⟨l, hv, _⟩ := SpiralIterator.visited_spec hR (spiralFuel 32768) (spiralFuel 32768) _ ht
    (by decide) (by omega) (by rw [h0]; simp only [if_true]; omega)
  refine ⟨l, hv, ?_⟩
  obtain ⟨l1, k1, hl, hv1⟩ := SpiralIterator.visited_of_count_zero h0 hv
  have hb : SpiralIterator.ringBase (((32768 : Nat) : Int) + 1) = 4295032832 := by
    unfold SpiralIterator.ringBase; norm_num
  have hp : SpiralIterator.pos
      (SpiralIterator.init 65537 65537 (max 32768 1) half half).tick = 0 := by decide
  have hrep := SpiralIterator.repeat_after_wrap hR 4294967295
    (SpiralIterator.init 65537 65537 (max 32768 1) half half).tick ht (by decide) (by decide)
    (by decide) (by rw [hp, hb]; decide) (by decide) (spiralFuel 32768) k1 l1 hv1
  rw [hl]
  exact hrep

/-! ## Claims about `pick`, the pick contexts and `handle` -/

theorem coordsRejected_of_outside {u v : FloatVal} (h : u.OutsideUnit ∨ v.OutsideUnit) :
    coordsRejected u v = true := by
  unfold coordsRejected FloatVal.ltInt FloatVal.gtInt
  unfold FloatVal.OutsideUnit at h
  simp only [Bool.or_eq_true, decide_eq_true_eq]
  omega

theorem coordsRejected_of_inUnit {u v : FloatVal} (hu : u.InUnit) (hv : v.InUnit) :
    coordsRejected u v = false := by
  unfold coordsRejected FloatVal.ltInt FloatVal.gtInt
  unfold FloatVal.InUnit at hu hv
  simp only [Bool.or_eq_false_iff, decide_eq_false_iff_not]
  omega

theorem outsideUnit_iff_not_inUnit (f : FloatVal) (hd : 0 < f.den) :
    f.OutsideUnit ↔ ¬ f.InUnit := by
  unfold FloatVal.OutsideUnit FloatVal.InUnit
  omega

/-- The normalisation at a viewport with origin `-2^-16` and width 1000 for the mouse position
1000: the difference `1000 + 2^-16` is not a binary32 value and is rounded to 1000, so the
coordinate that `pick` computes is exactly 1; the bounds check lets it pass and the pick is
queued. -/
theorem pick_accepts_rounded_boundary :
    normalize (FloatVal.ofInt 1000) { num := -1, den := 65536 } (FloatVal.ofInt 1000) =
      { num := 8388608, den := 8388608 } ∧
    (pick (Picker.create 4) (some shiftedView) (FloatVal.ofInt 1000) (FloatVal.ofInt 300)
        (some 1) blankPixels).map
      (fun r => (r.1, r.2.picks.map (fun pk => (pk.u, pk.v, pk.callback, pk.frame)))) =
      some (true, [({ num := 8388608, den := 8388608 }, { num := 8388608, den := 16777216 },
        1, 0)]) := by
  decide

/-- C12: for every picker state and every call of `pick` in which the view is null, or its
camera is null, or the viewport of the camera is null, or one of the normalised coordinates
`u = (x - vp.x)/vp.width`, `v = (y - vp.y)/vp.height`, as `pick` computes them in binary32
arithmetic (`normalize`), is below 0 or above 1, `pick` returns false and the picker state
afterwards is the state before: queue, pick contexts with their node masks, and log of
callback invocations are unchanged. -/
theorem pick_rejected_leaves_state (p : Picker) (view : Option View) (x y : FloatVal)
    (callback : Option Nat) (pixels : Int → Int → Vec4f)
    (h : view = none ∨ ∃ vw, view = some vw ∧
      (vw.camera = none ∨ ∃ cam, vw.camera = some cam ∧
        (cam.viewport = none ∨ ∃ vp, cam.viewport = some vp ∧
          ((normalize x vp.x vp.width).OutsideUnit ∨
            (normalize y vp.y vp.height).OutsideUnit)))) :
    pick p view x y callback pixels = some (false, p) := by
  rcases h with rfl | ⟨vw, rfl, h⟩
  · rfl
  · unfold pick
    simp only
    cases hcb : callbackToUse p callback with
    | none => rfl
    | some cb =>
      simp only
      rcases h with hcam | ⟨cam, hcam, h⟩
      · rw [hcam]
      · rw [hcam]
        simp only
        rcases h with hvp | ⟨vp, hvp, h⟩
        · rw [hvp]
        · rw [hvp]
          simp only [coordsRejected_of_outside h, if_true]

/-- C12 at a pick 100 pixels to the right of an 800 x 600 viewport. -/
theorem pick_rejected_leaves_state_witness :
    (some (viewAtFrame 1) = (none : Option View) ∨ ∃ vw, some (viewAtFrame 1) = some vw ∧
      (vw.camera = none ∨ ∃ cam, vw.camera = some cam ∧
        (cam.viewport = none ∨ ∃ vp, cam.viewport = some vp ∧
          ((normalize (FloatVal.ofInt 900) vp.x vp.width).OutsideUnit ∨
            (normalize (FloatVal.ofInt 300) vp.y vp.height).OutsideUnit)))) ∧
    pick scenarioD (some (viewAtFrame 1)) (FloatVal.ofInt 900) (FloatVal.ofInt 300) (some 1)
      blankPixels = some (false, scenarioD) :=
  have h : some (viewAtFrame 1) = (none : Option View) ∨ ∃ vw, some (viewAtFrame 1) = some vw ∧
      (vw.camera = none ∨ ∃ cam, vw.camera = some cam ∧
        (cam.viewport = none ∨ ∃ vp, cam.viewport = some vp ∧
          ((normalize (FloatVal.ofInt 900) vp.x vp.width).OutsideUnit ∨
            (normalize (FloatVal.ofInt 300) vp.y vp.height).OutsideUnit))) :=
    Or.inr ⟨viewAtFrame 1, rfl, Or.inr ⟨_, rfl, Or.inr ⟨_, rfl, Or.inl (by decide)⟩⟩⟩
  ⟨h, pick_rejected_leaves_state scenarioD (some (viewAtFrame 1)) (FloatVal.ofInt 900)
    (FloatVal.ofInt 300) (some 1) blankPixels h⟩

theorem findContext_some {viewId : Nat} :
    ∀ {l : List PickContext} {i : Nat}, findContext viewId l = some i →
      ∃ c, l[i]? = some c ∧ c.view = viewId := by
  intro l
  induction l with
  | nil => intro i h; simp [findContext] at h
  | cons c cs ih =>
    intro i h
    unfold findContext at h
    split_ifs at h with hc
    · simp only [Option.some.injEq] at h
      subst h
      exact ⟨c, by simp, hc⟩
    · cases hf : findContext viewId cs with
      | none => rw [hf] at h; simp at h
      | some j =>
        rw [hf] at h
        simp only [Option.map_some', Option.some.injEq] at h
        subst h
        obtain ⟨c1, h1, h2⟩ := ih hf
        exact ⟨c1, by simpa using h1, h2⟩

theorem findContext_none {viewId : Nat} :
    ∀ {l : List PickContext}, findContext viewId l = none ↔ ∀ c ∈ l, c.view ≠ viewId := by
  intro l
  induction l with
  | nil => simp [findContext]
  | cons c cs ih =>
    unfold findContext
    split_ifs with hc
    · simp only [List.mem_cons, forall_eq_or_imp, false_iff, not_and]
      intro h; exact absurd hc h
    · simp only [Option.map_eq_none', ih, List.mem_cons, forall_eq_or_imp, hc, ne_eq,
        not_false_eq_true, true_and]

theorem findContext_append_new {viewId : Nat} {l : List PickContext} {c : PickContext}
    (hn : findContext viewId l = none) (hc : c.view = viewId) :
    findContext viewId (l ++ [c]) = some l.length := by
  induction l with
  | nil => simp [findContext, hc]
  | cons a l ih =>
    unfold findContext at hn
    split_ifs at hn with ha
    simp only [Option.map_eq_none'] at hn
    rw [List.cons_append]
    unfold findContext
    rw [if_neg ha, ih hn]
    rfl

theorem map_view_set {l : List PickContext} {i : Nat} {c c2 : PickContext}
    (hi : l[i]? = some c) (hv : c2.view = c.view) :
    (l.set i c2).map (fun c => c.view) = l.map (fun c => c.view) := by
  rw [List.map_set, hv]
  apply List.ext_getElem?
  intro j
  rw [List.getElem?_set]
  split_ifs with hij hlt
  · subst hij
    rw [List.getElem?_map, hi]
    rfl
  · subst hij
    rw [List.length_map] at hlt
    rw [List.getElem?_eq_none (by rw [List.length_map]; omega)]
  · rfl

theorem map_view_disableContext (l : List PickContext) (i : Nat) :
    (disableContext l i).map (fun c => c.view) = l.map (fun c => c.view) := by
  unfold disableContext
  cases hi : l[i]? with
  | none => rfl
  | some c => exact map_view_set hi rfl

theorem runPicksLoop_views (fuel n : Nat) :
    ∀ (q : List Pick) (p p1 : Picker), runPicksLoop fuel n q p = some p1 →
      p1.views = p.views := by
  intro q
  induction q with
  | nil =>
    intro p p1 h
    simp only [runPicksLoop, Option.some.injEq] at h
    rw [← h]
    rfl
  | cons pk rest ih =>
    intro p p1 h
    unfold runPicksLoop at h
    split_ifs at h with hfr
    · unfold checkForPickResult at h
      cases ho : pickOutcome fuel p.buffer p.pickContexts pk with
      | none => rw [ho] at h; simp at h
      | some ev =>
        rw [ho] at h
        simp only at h
        rw [ih _ _ h]
        exact map_view_disableContext _ _
    · simp only [Option.some.injEq] at h
      rw [← h]
      rfl

theorem getOrCreatePickContext_spec {p p1 : Picker} {view : View}
    {pixels : Int → Int → Vec4f} {i : Nat}
    (h : getOrCreatePickContext p view pixels = some (p1, i)) :
    (∃ c, p1.pickContexts[i]? = some c ∧ c.view = view.id) ∧
    p1.picks = p.picks ∧ p1.log = p.log ∧ p1.buffer = p.buffer ∧
    p1.defaultCallback = p.defaultCallback ∧
    ((p1 = p ∧ ∃ c ∈ p.pickContexts, c.view = view.id) ∨
      ((∀ c ∈ p.pickContexts, c.view ≠ view.id) ∧ i = p.pickContexts.length ∧
        ∃ c, c.view = view.id ∧ p1 = { p with pickContexts := p.pickContexts ++ [c] })) := by
  unfold getOrCreatePickContext at h
  cases hf : findContext view.id p.pickContexts with
  | some j =>
    rw [hf] at h
    simp only [Option.some.injEq, Prod.mk.injEq] at h
    obtain ⟨rfl, rfl⟩ := h
    obtain ⟨c, hc1, hc2⟩ := findContext_some hf
    exact ⟨⟨c, hc1, hc2⟩, rfl, rfl, rfl, rfl,
      Or.inl ⟨rfl, c, List.getElem?_mem hc1, hc2⟩⟩
  | none =>
    rw [hf] at h
    cases hcam : view.camera with
    | none => rw [hcam] at h; simp at h
    | some cam =>
      rw [hcam] at h
      simp only [Option.some.injEq, Prod.mk.injEq] at h
      obtain ⟨rfl, rfl⟩ := h
      refine ⟨⟨{ view := view.id
                 image := { s := p.rttSize, t := p.rttSize, read := pixels }
                 nodeMask := 4294967295 }, ?_, rfl⟩, rfl, rfl, rfl, rfl,
        Or.inr ⟨findContext_none.mp hf, rfl, _, rfl, rfl⟩⟩
      simp

theorem getOrCreatePickContext_total (p : Picker) (view : View) (pixels : Int → Int → Vec4f)
    (h : (∃ c ∈ p.pickContexts, c.view = view.id) ∨ view.camera ≠ none) :
    ∃ p1 i, getOrCreatePickContext p view pixels = some (p1, i) := by
  unfold getOrCreatePickContext
  cases hf : findContext view.id p.pickContexts with
  | some j => exact ⟨_, _, rfl⟩
  | none =>
    rcases h with ⟨c, hc, hv⟩ | h
    · exact absurd hv (findContext_none.mp hf c hc)
    · cases hcam : view.camera with
      | none => exact absurd hcam h
      | some cam => exact ⟨_, _, rfl⟩

theorem pick_cases {p p2 : Picker} {view : Option View} {x y : FloatVal}
    {callback : Option Nat} {pixels : Int → Int → Vec4f} {b : Bool}
    (h : pick p view x y callback pixels = some (b, p2)) :
    (b = false ∧ p2 = p) ∨
    (b = true ∧ ∃ (vw : View) (p1 : Picker) (i : Nat) (ctx ctx2 : PickContext) (pk : Pick),
      view = some vw ∧ getOrCreatePickContext p vw pixels = some (p1, i) ∧
      p1.pickContexts[i]? = some ctx ∧ ctx2.view = ctx.view ∧ ctx2.nodeMask = 4294967295 ∧
      pk.context = i ∧
      p2 = { p1 with pickContexts := p1.pickContexts.set i ctx2, picks := p1.picks ++ [pk] }) := by
  unfold pick at h
  split at h
  · simp only [Option.some.injEq, Prod.mk.injEq] at h
    exact Or.inl ⟨h.1.symm, h.2.symm⟩
  · rename_i vw
    split at h
    · simp only [Option.some.injEq, Prod.mk.injEq] at h
      exact Or.inl ⟨h.1.symm, h.2.symm⟩
    · split at h
      · simp only [Option.some.injEq, Prod.mk.injEq] at h
        exact Or.inl ⟨h.1.symm, h.2.symm⟩
      · split at h
        · simp only [Option.some.injEq, Prod.mk.injEq] at h
          exact Or.inl ⟨h.1.symm, h.2.symm⟩
        · simp only at h
          split at h
          · simp only [Option.some.injEq, Prod.mk.injEq] at h
            exact Or.inl ⟨h.1.symm, h.2.symm⟩
          · split at h
            · simp at h
            · rename_i p1 i hg
              split at h
              · simp at h
              · rename_i ctx hctx
                simp only [Option.some.injEq, Prod.mk.injEq] at h
                refine Or.inr ⟨h.1.symm, vw, p1, i, ctx, _, _, rfl, hg, hctx, ?_, ?_, ?_,
                  h.2.symm⟩ <;> rfl

theorem getOrCreatePickContext_views {p p1 : Picker} {view : View}
    {pixels : Int → Int → Vec4f} {i : Nat}
    (h : getOrCreatePickContext p view pixels = some (p1, i)) :
    ∃ extra, p1.views = p.views ++ extra ∧ extra.length ≤ 1 ∧
      (p.views.Nodup → p1.views.Nodup) := by
  obtain ⟨_, _, _, _, _, hcase⟩ := getOrCreatePickContext_spec h
  rcases hcase with ⟨rfl, _⟩ | ⟨hnew, _, c, hc, rfl⟩
  · exact ⟨[], by simp, by simp, fun hn => hn⟩
  · refine ⟨[c.view], by simp [Picker.views], by simp, ?_⟩
    intro hn
    simp only [Picker.views, List.map_append, List.map_cons, List.map_nil]
    rw [List.nodup_append]
    refine ⟨hn, List.nodup_singleton _, ?_⟩
    intro a ha hb
    simp only [List.mem_singleton] at hb
    subst hb
    simp only [Picker.views, List.mem_map] at ha
    obtain ⟨c1, hc1, hv1⟩ := ha
    exact hnew c1 hc1 (by rw [hv1, hc])

theorem step_views {p p1 : Picker} (h : Step p p1) :
    ∃ extra, p1.views = p.views ++ extra ∧ extra.length ≤ 1 ∧
      (p.views.Nodup → p1.views.Nodup) := by
  cases h with
  | context view pixels _ i hg => exact getOrCreatePickContext_views hg
  | texture view pixels _ ht =>
    unfold getOrCreateTexture at ht
    cases hg : getOrCreatePickContext p view pixels with
    | none => rw [hg] at ht; simp at ht
    | some r =>
      obtain ⟨q, i⟩ := r
      rw [hg] at ht
      simp only at ht
      obtain ⟨extra, he, hl, hn⟩ := getOrCreatePickContext_views hg
      cases hc : q.pickContexts[i]? with
      | none => rw [hc] at ht; simp at ht
      | some ctx =>
        rw [hc] at ht
        simp only at ht
        split_ifs at ht
        · simp only [Option.some.injEq] at ht
          subst ht
          exact ⟨extra, he, hl, hn⟩
        · simp only [Option.some.injEq] at ht
          subst ht
          have e : ({ q with pickContexts := q.pickContexts.set i { ctx with texValid := true } }
              : Picker).views = q.views := map_view_set hc rfl
          rw [e]
          exact ⟨extra, he, hl, hn⟩
  | pick view x y callback pixels b _ hp =>
    rcases pick_cases hp with ⟨_, rfl⟩ | ⟨_, vw, q, i, ctx, ctx2, pk, _, hg, hc, hv, _, _, rfl⟩
    · exact ⟨[], by simp, by simp, fun hn => hn⟩
    · obtain ⟨extra, he, hl, hn⟩ := getOrCreatePickContext_views hg
      have e : ({ q with pickContexts := q.pickContexts.set i ctx2, picks := q.picks ++ [pk] }
          : Picker).views = q.views := map_view_set hc hv
      rw [e]
      exact ⟨extra, he, hl, hn⟩
  | drain fuel n _ hd =>
    have e := runPicksLoop_views fuel n _ _ _ hd
    rw [e]
    exact ⟨[], by simp, by simp, fun hn => hn⟩

theorem runPicksLoop_buffer (fuel n : Nat) :
    ∀ (q : List Pick) (p p1 : Picker), runPicksLoop fuel n q p = some p1 →
      p1.buffer = p.buffer := by
  intro q
  induction q with
  | nil =>
    intro p p1 h
    simp only [runPicksLoop, Option.some.injEq] at h
    rw [← h]
  | cons pk rest ih =>
    intro p p1 h
    unfold runPicksLoop at h
    split_ifs at h with hfr
    · unfold checkForPickResult at h
      cases ho : pickOutcome fuel p.buffer p.pickContexts pk with
      | none => rw [ho] at h; simp at h
      | some ev =>
        rw [ho] at h
        simp only at h
        rw [ih _ _ h]
    · simp only [Option.some.injEq] at h
      rw [← h]

/-- The search margin `_buffer` is set to 2 by the constructor and is changed by none of the
operations, so the radius that `checkForPickResult` passes to the spiral iterator,
`max(_buffer, 1)`, is 2. -/
theorem step_buffer :
    (∀ cameraSize : Int, (Picker.create cameraSize).buffer = 2) ∧
    (∀ p p1 : Picker, Step p p1 → p1.buffer = p.buffer) ∧
    maxRingOf 2 = 2 := by
  refine ⟨fun _ => rfl, ?_, by decide⟩
  intro p p1 h
  cases h with
  | context view pixels _ i hg => exact (getOrCreatePickContext_spec hg).2.2.2.1
  | texture view pixels _ ht =>
    unfold getOrCreateTexture at ht
    cases hg : getOrCreatePickContext p view pixels with
    | none => rw [hg] at ht; simp at ht
    | some r =>
      obtain ⟨q, i⟩ := r
      rw [hg] at ht
      simp only at ht
      have hb := (getOrCreatePickContext_spec hg).2.2.2.1
      cases hc : q.pickContexts[i]? with
      | none => rw [hc] at ht; simp at ht
      | some ctx =>
        rw [hc] at ht
        simp only at ht
        split_ifs at ht
        · simp only [Option.some.injEq] at ht
          subst ht
          exact hb
        · simp only [Option.some.injEq] at ht
          subst ht
          exact hb
  | pick view x y callback pixels b _ hp =>
    rcases pick_cases hp with ⟨_, rfl⟩ | ⟨_, vw, q, i, ctx, ctx2, pk, _, hg, hc, hv, _, _, rfl⟩
    · rfl
    · exact (getOrCreatePickContext_spec hg).2.2.2.1
  | drain fuel n _ hd => exact runPicksLoop_buffer fuel n _ _ _ hd

theorem reachable_views_nodup {p : Picker} (h : Reachable p) : p.views.Nodup := by
  induction h with
  | empty p hc _ => simp [Picker.views, hc]
  | step p p1 _ hs ih =>
    obtain ⟨_, _, _, hn⟩ := step_views hs
    exact hn ih

/-- C13 (as stated, refuted): on a new picker without default callback, a pick at the middle
of the 800 x 600 viewport of a view with camera and viewport, made without a callback, returns
false and queues nothing. -/
theorem pick_without_callback_rejected :
    (viewAtFrame 1).camera.isSome = true ∧
    ((viewAtFrame 1).camera.bind (fun cam => cam.viewport)).isSome = true ∧
    (normalize (FloatVal.ofInt 400) (FloatVal.ofInt 0) (FloatVal.ofInt 800)).InUnit ∧
    (normalize (FloatVal.ofInt 300) (FloatVal.ofInt 0) (FloatVal.ofInt 600)).InUnit ∧
    (pick (Picker.create 256) (some (viewAtFrame 1)) (FloatVal.ofInt 400) (FloatVal.ofInt 300)
        none blankPixels).map (fun r => (r.1, r.2.picks, r.2.pickContexts.length)) =
      some (false, [], 0) := by
  decide

/-- C13 (amended): for every picker state and every call of `pick` in which the view, its
camera and the viewport of the camera are present, a callback is available (the argument, or
else the default callback) and the normalised point `(u, v)` lies in `[0,1] x [0,1]`, `pick`
returns true; the queue afterwards is the queue before with one pick appended at the back that
carries `(u, v)`, the callback, the position of the pick context of that view (the one
`getOrCreatePickContext` returns) and the frame number of the frame stamp of the view (0 when
it has none); that context has its node mask set to `0xffffffff` and the matrices of the
camera; the log of callback invocations is unchanged. -/
theorem pick_accepted_appends_request (p : Picker) (vw : View) (cam : Camera) (vp : Viewport)
    (x y : FloatVal) (callback : Option Nat) (cb : Nat) (pixels : Int → Int → Vec4f)
    (hcam : vw.camera = some cam) (hvp : cam.viewport = some vp)
    (hcb : callbackToUse p callback = some cb)
    (hu : (normalize x vp.x vp.width).InUnit) (hv : (normalize y vp.y vp.height).InUnit) :
    ∃ (p1 p2 : Picker) (i : Nat) (ctx : PickContext),
      getOrCreatePickContext p vw pixels = some (p1, i) ∧
      pick p (some vw) x y callback pixels = some (true, p2) ∧
      p2.picks = p.picks ++
        [{ context := i, u := normalize x vp.x vp.width, v := normalize y vp.y vp.height,
           callback := cb, frame := vw.frameStamp.getD 0 }] ∧
      p2.pickContexts[i]? = some ctx ∧ ctx.view = vw.id ∧ ctx.nodeMask = 4294967295 ∧
      ctx.viewMatrix = cam.viewMatrix ∧ ctx.projectionMatrix = cam.projectionMatrix ∧
      p2.views = p1.views ∧ p2.log = p.log := by
  obtain ⟨p1, i, hg⟩ := getOrCreatePickContext_total p vw pixels
    (Or.inr (by rw [hcam]; simp))
  obtain ⟨⟨c, hc, hcv⟩, hpicks, hlog, _⟩ := getOrCreatePickContext_spec hg
  have hlt : i < p1.pickContexts.length := by
    by_contra hge
    rw [List.getElem?_eq_none (by omega)] at hc
    cases hc
  refine ⟨p1,
    { p1 with
      pickContexts := p1.pickContexts.set i
        { c with
          nodeMask := 4294967295
          viewMatrix := cam.viewMatrix
          projectionMatrix := cam.projectionMatrix }
      picks := p1.picks ++
        [{ context := i, u := normalize x vp.x vp.width, v := normalize y vp.y vp.height,
           callback := cb, frame := vw.frameStamp.getD 0 }] },
    i,
    { c with
      nodeMask := 4294967295
      viewMatrix := cam.viewMatrix
      projectionMatrix := cam.projectionMatrix },
    hg, ?_, ?_, ?_, ?_, rfl, rfl, rfl, ?_, ?_⟩
  · unfold pick
    simp only [hcb, hcam, hvp, coordsRejected_of_inUnit hu hv, Bool.false_eq_true, if_false,
      hg, hc]
  · simp only [hpicks]
  · simp only [List.getElem?_set, if_true, hlt]
  · exact hcv
  · exact map_view_set hc rfl
  · exact hlog

/-- C13 (amended) at a new picker and a pick, with callback 1, at the middle of the viewport of
`viewAtFrame 5`. -/
theorem pick_accepted_appends_request_witness :
    (viewAtFrame 5).camera = some
      { viewport := some
          { x := FloatVal.ofInt 0, y := FloatVal.ofInt 0, width := FloatVal.ofInt 800,
            height := FloatVal.ofInt 600 }
        viewMatrix := 1
        projectionMatrix := 2 } ∧
    callbackToUse (Picker.create 256) (some 1) = some 1 ∧
    (normalize (FloatVal.ofInt 400) (FloatVal.ofInt 0) (FloatVal.ofInt 800)).InUnit ∧
    (normalize (FloatVal.ofInt 300) (FloatVal.ofInt 0) (FloatVal.ofInt 600)).InUnit ∧
    (pick (Picker.create 256) (some (viewAtFrame 5)) (FloatVal.ofInt 400) (FloatVal.ofInt 300)
        (some 1) blankPixels).map
      (fun r => (r.1, r.2.picks, r.2.pickContexts.map (fun c => (c.view, c.nodeMask)))) =
      some (true,
        [{ context := 0, u := { num := 8388608, den := 16777216 },
           v := { num := 8388608, den := 16777216 }, callback := 1, frame := 5 }],
        [(7, 4294967295)]) ∧
    ∃ (p1 p2 : Picker) (i : Nat) (ctx : PickContext),
      getOrCreatePickContext (Picker.create 256) (viewAtFrame 5) blankPixels = some (p1, i) ∧
      pick (Picker.create 256) (some (viewAtFrame 5)) (FloatVal.ofInt 400) (FloatVal.ofInt 300)
        (some 1) blankPixels = some (true, p2) ∧
      p2.picks = (Picker.create 256).picks ++
        [{ context := i
           u := normalize (FloatVal.ofInt 400) (FloatVal.ofInt 0) (FloatVal.ofInt 800)
           v := normalize (FloatVal.ofInt 300) (FloatVal.ofInt 0) (FloatVal.ofInt 600)
           callback := 1, frame := (viewAtFrame 5).frameStamp.getD 0 }] ∧
      p2.pickContexts[i]? = some ctx ∧ ctx.view = (viewAtFrame 5).id ∧
      ctx.nodeMask = 4294967295 ∧ ctx.viewMatrix = 1 ∧ ctx.projectionMatrix = 2 ∧
      p2.views = p1.views ∧ p2.log = (Picker.create 256).log :=
  ⟨rfl, rfl, by decide, by decide, by decide,
    pick_accepted_appends_request (Picker.create 256) (viewAtFrame 5)
      { viewport := some
          { x := FloatVal.ofInt 0, y := FloatVal.ofInt 0, width := FloatVal.ofInt 800,
            height := FloatVal.ofInt 600 }
        viewMatrix := 1
        projectionMatrix := 2 }
      { x := FloatVal.ofInt 0, y := FloatVal.ofInt 0, width := FloatVal.ofInt 800,
        height := FloatVal.ofInt 600 }
      (FloatVal.ofInt 400) (FloatVal.ofInt 300) (some 1) 1 blankPixels rfl rfl rfl
      (by decide) (by decide)⟩

theorem getOrCreatePickContext_idempotent {p p1 : Picker} {view : View}
    {pixels : Int → Int → Vec4f} {i : Nat}
    (h : getOrCreatePickContext p view pixels = some (p1, i)) (pixels2 : Int → Int → Vec4f) :
    getOrCreatePickContext p1 view pixels2 = some (p1, i) := by
  unfold getOrCreatePickContext at h
  cases hf : findContext view.id p.pickContexts with
  | some j =>
    rw [hf] at h
    simp only [Option.some.injEq, Prod.mk.injEq] at h
    obtain ⟨rfl, rfl⟩ := h
    unfold getOrCreatePickContext
    rw [hf]
  | none =>
    rw [hf] at h
    cases hcam : view.camera with
    | none => rw [hcam] at h; simp at h
    | some cam =>
      rw [hcam] at h
      simp only [Option.some.injEq, Prod.mk.injEq] at h
      obtain ⟨rfl, rfl⟩ := h
      unfold getOrCreatePickContext
      simp only
      rw [findContext_append_new hf rfl]

/-- C14: in every state reachable from a picker without contexts and queued picks through
`getOrCreatePickContext`, `getOrCreateTexture`, `pick` and `runPicks`, no two pick contexts
belong to the same view; a call of `getOrCreatePickContext(view)` that returns gives a context
of that view, a repeat of the call returns the same context and leaves the state as it is, a
call for a view that already has a context returns with the state unchanged, and a call for a
view without context appends exactly one context, of that view; and every one of the four
operations keeps the existing contexts in place, in order, adding at most one at the end. -/
theorem one_context_per_view (p : Picker) (h : Reachable p) :
    p.views.Nodup ∧
    (∀ (view : View) (pixels : Int → Int → Vec4f) (p1 : Picker) (i : Nat),
      getOrCreatePickContext p view pixels = some (p1, i) →
        (∃ c, p1.pickContexts[i]? = some c ∧ c.view = view.id) ∧
        (∀ pixels2, getOrCreatePickContext p1 view pixels2 = some (p1, i)) ∧
        ((∃ c ∈ p.pickContexts, c.view = view.id) → p1 = p) ∧
        ((∀ c ∈ p.pickContexts, c.view ≠ view.id) →
          ∃ c, c.view = view.id ∧ p1.pickContexts = p.pickContexts ++ [c])) ∧
    (∀ (view : View) (pixels : Int → Int → Vec4f),
      (∃ c ∈ p.pickContexts, c.view = view.id) →
        ∃ i, getOrCreatePickContext p view pixels = some (p, i)) ∧
    (∀ p1, Step p p1 →
      ∃ extra, p1.views = p.views ++ extra ∧ extra.length ≤ 1 ∧ p1.views.Nodup) := by
  have hn := reachable_views_nodup h
  refine ⟨hn, ?_, ?_, ?_⟩
  · intro view pixels p1 i hg
    obtain ⟨hc, _, _, _, _, hcase⟩ := getOrCreatePickContext_spec hg
    refine ⟨hc, getOrCreatePickContext_idempotent hg, ?_, ?_⟩
    · rintro ⟨c, hcm, hcv⟩
      rcases hcase with ⟨rfl, _⟩ | ⟨hnew, _⟩
      · rfl
      · exact absurd hcv (hnew c hcm)
    · intro hnone
      rcases hcase with ⟨_, c, hcm, hcv⟩ | ⟨_, _, c, hcv, rfl⟩
      · exact absurd hcv (hnone c hcm)
      · exact ⟨c, hcv, rfl⟩
  · intro view pixels hex
    obtain ⟨p1, i, hg⟩ := getOrCreatePickContext_total p view pixels (Or.inl hex)
    obtain ⟨_, _, _, _, _, hcase⟩ := getOrCreatePickContext_spec hg
    rcases hcase with ⟨rfl, _⟩ | ⟨hnew, _⟩
    · exact ⟨i, hg⟩
    · obtain ⟨c, hcm, hcv⟩ := hex
      exact absurd hcv (hnew c hcm)
  · intro p1 hs
    obtain ⟨extra, he, hl, hnd⟩ := step_views hs
    exact ⟨extra, he, hl, hnd hn⟩

/-- C14 at the state after one accepted pick on a new picker. -/
theorem one_context_per_view_witness :
    Reachable afterOnePick ∧
    (afterOnePick.views.Nodup ∧
    (∀ (view : View) (pixels : Int → Int → Vec4f) (p1 : Picker) (i : Nat),
      getOrCreatePickContext afterOnePick view pixels = some (p1, i) →
        (∃ c, p1.pickContexts[i]? = some c ∧ c.view = view.id) ∧
        (∀ pixels2, getOrCreatePickContext p1 view pixels2 = some (p1, i)) ∧
        ((∃ c ∈ afterOnePick.pickContexts, c.view = view.id) → p1 = afterOnePick) ∧
        ((∀ c ∈ afterOnePick.pickContexts, c.view ≠ view.id) →
          ∃ c, c.view = view.id ∧ p1.pickContexts = afterOnePick.pickContexts ++ [c])) ∧
    (∀ (view : View) (pixels : Int → Int → Vec4f),
      (∃ c ∈ afterOnePick.pickContexts, c.view = view.id) →
        ∃ i, getOrCreatePickContext afterOnePick view pixels = some (afterOnePick, i)) ∧
    (∀ p1, Step afterOnePick p1 →
      ∃ extra, p1.views = afterOnePick.views ++ extra ∧ extra.length ≤ 1 ∧ p1.views.Nodup)) :=
  have hr : Reachable afterOnePick :=
    Reachable.step (Picker.create 256) afterOnePick
      (Reachable.empty (Picker.create 256) rfl rfl)
      (Step.pick (Picker.create 256) (some (viewAtFrame 1)) (FloatVal.ofInt 400)
        (FloatVal.ofInt 300) (some 1) blankPixels true afterOnePick rfl)
  ⟨hr, one_context_per_view afterOnePick hr⟩

theorem not_isEmpty_eq_true_iff {α : Type} (l : List α) : (!l.isEmpty) = true ↔ l ≠ [] := by
  cases l <;> simp

/-- C17: for every well-formed picker state and every `FRAME` event, with enough fuel `handle`
returns; the state afterwards is the state after `runPicks(n)` for the frame number `n` of the
frame stamp of the view (the state before, when there is no view or no frame stamp), and
`requestRedraw()` is called if and only if the queue is then non-empty. -/
theorem frame_event_redraw_iff_pending (fuel : Nat) (p : Picker) (ea : Event)
    (pixels : Int → Int → Vec4f) (hframe : ea.isFrame = true) (hwf : p.WellFormed)
    (hf : spiralFuel p.buffer ≤ fuel) :
    ∃ (p1 : Picker) (redraw : Bool),
      handle fuel p ea pixels = some (p1, redraw) ∧
      (redraw = true ↔ p1.picks ≠ []) ∧
      (redraw = false ↔ p1.picks = []) ∧
      (∀ n, ea.frameStamp = some n → runPicks fuel n p = some p1) ∧
      (ea.frameStamp = none → p1 = p) := by
  unfold handle
  rw [if_pos hframe]
  cases hfs : ea.frameStamp with
  | none =>
    refine ⟨p, !p.picks.isEmpty, rfl, not_isEmpty_eq_true_iff _, ?_, ?_, fun _ => rfl⟩
    · cases p.picks <;> simp
    · intro n hn; cases hn
  | some n =>
    have hd := runPicks_eq_drained fuel n p hwf hf
    refine ⟨drained fuel n p, !(drained fuel n p).picks.isEmpty, ?_,
      not_isEmpty_eq_true_iff _, ?_, ?_, ?_⟩
    · simp only [hd]
    · cases (drained fuel n p).picks <;> simp
    · intro m hm
      simp only [Option.some.injEq] at hm
      rw [← hm]
      exact hd
    · intro hnone; cases hnone

/-- C17 at Scenario D: the `FRAME` event of frame 4 drains the queue and requests no redraw,
the `FRAME` event of frame 3 leaves both picks queued and requests one. -/
theorem frame_event_redraw_iff_pending_witness :
    (frameEvent 4).isFrame = true ∧ scenarioD.WellFormed ∧ spiralFuel scenarioD.buffer ≤ 42 ∧
    (handle 42 scenarioD (frameEvent 4) blankPixels).map (fun r => (r.1.picks.length, r.2)) =
      some (0, false) ∧
    (handle 42 scenarioD (frameEvent 3) blankPixels).map (fun r => (r.1.picks.length, r.2)) =
      some (2, true) ∧
    ∃ (p1 : Picker) (redraw : Bool),
      handle 42 scenarioD (frameEvent 4) blankPixels = some (p1, redraw) ∧
      (redraw = true ↔ p1.picks ≠ []) ∧
      (redraw = false ↔ p1.picks = []) ∧
      (∀ n, (frameEvent 4).frameStamp = some n → runPicks 42 n scenarioD = some p1) ∧
      ((frameEvent 4).frameStamp = none → p1 = scenarioD) :=
  ⟨rfl, ⟨by decide, by decide⟩, by decide, by decide, by decide,
    frame_event_redraw_iff_pending 42 scenarioD (frameEvent 4) blankPixels rfl
      ⟨by decide, by decide⟩ (by decide)⟩

/-- C18 (code evaluated at the failing input): on a new picker, a pick on a view in frame 1
and a second pick on the same view in frame 2 are both accepted; `runPicks(2)` then resolves
the first pick and sets the node mask of the context to 0, while the second pick, which
targets the same context (position 0), is still queued. -/
theorem pending_pick_with_render_pass_off :
    ((pick (Picker.create 4) (some (viewAtFrame 1)) (FloatVal.ofInt 400) (FloatVal.ofInt 300)
        (some 1) blankPixels).bind
      (fun r1 =>
        (pick r1.2 (some (viewAtFrame 2)) (FloatVal.ofInt 400) (FloatVal.ofInt 300) (some 1)
            blankPixels).bind
          (fun r2 =>
            (runPicks 42 2 r2.2).map
              (fun p3 =>
                (r1.1, r2.1, r2.2.picks.map (fun pk => (pk.context, pk.frame)),
                  r2.2.pickContexts.map (fun c => c.nodeMask),
                  p3.picks.map (fun pk => (pk.context, pk.frame)),
                  p3.pickContexts.map (fun c => c.nodeMask)))))) =
      some (true, true, [(0, 1), (0, 2)], [4294967295], [(0, 2)], [0]) := by
  rfl

end RTTPicker

